import Mathlib

/-!
Verification of the Polymarket social-signals collection scripts.

The Python sources are shallowly embedded: Python/JSON values become the
inductive `PyVal`, dictionaries become association lists, fallible code
returns `Except PyErr`, the wall clock and the upstream HTTP API become
explicit parameters (a timestamp and oracle functions).
-/

namespace PolySig

/-- A Python runtime value as produced by `json.loads` and manipulated by the
scripts: `None`, booleans, ints, floats (modelled exactly as rationals),
strings, lists and dicts. -/
inductive PyVal where
  | null
  | b (b : Bool)
  | i (n : Int)
  | f (q : ℚ)
  | s (s : String)
  | arr (xs : List PyVal)
  | obj (fields : List (String × PyVal))

/-- A Python dict of string keys, the shape every market record has. -/
abbrev PyDict := List (String × PyVal)

/-- Python exceptions that the scripts can raise. -/
inductive PyErr where
  | typeError (msg : String)
  | attributeError (msg : String)
  | keyError (key : String)
  | httpError (status : Nat)
  | valueError (msg : String)
  | transportExc (msg : String)
  | runtimeError (msg : String)
  | getFailed (url : String) (lastErr : Option PyErr)

mutual

/-- Python `==` on runtime values. Numbers compare across `int`/`float`/`bool`
(Python's `bool` is an `int` subclass, so `True == 1`); dict comparison is
modelled field-list-wise (the scripts only ever put strings in the sets they
test membership against, where this coincides with Python's semantics). -/
def PyVal.beq : PyVal → PyVal → Bool
  | .null, .null => true
  | .b x, .b y => x == y
  | .b x, .i n => (if x then 1 else 0) == n
  | .i n, .b x => n == (if x then 1 else 0)
  | .b x, .f q => ((if x then 1 else 0) : ℚ) == q
  | .f q, .b x => q == ((if x then 1 else 0) : ℚ)
  | .i n, .i m => n == m
  | .i n, .f q => (n : ℚ) == q
  | .f q, .i n => q == (n : ℚ)
  | .f q, .f r => q == r
  | .s x, .s y => x == y
  | .arr xs, .arr ys => PyVal.beqL xs ys
  | .obj xs, .obj ys => PyVal.beqF xs ys
  | _, _ => false

/-- Python `==` on lists, elementwise. -/
def PyVal.beqL : List PyVal → List PyVal → Bool
  | [], [] => true
  | x :: xs, y :: ys => PyVal.beq x y && PyVal.beqL xs ys
  | _, _ => false

/-- Python `==` on dict field lists. -/
def PyVal.beqF : List (String × PyVal) → List (String × PyVal) → Bool
  | [], [] => true
  | (k, v) :: xs, (k2, v2) :: ys => k == k2 && PyVal.beq v v2 && PyVal.beqF xs ys
  | _, _ => false

end

/-- Python truthiness (`if v:`): `None`, `False`, zero, the empty string, the
empty list and the empty dict are falsy; everything else is truthy. -/
def PyVal.truthy : PyVal → Bool
  | .null => false
  | .b x => x
  | .i n => n != 0
  | .f q => q != 0
  | .s v => v != ""
  | .arr xs => !xs.isEmpty
  | .obj fs => !fs.isEmpty

/-- Python `a or b`: `a` if truthy, else `b`. -/
def pyOr (a b : PyVal) : PyVal := if a.truthy then a else b

/-! Character-list implementations of the string operations the scripts use
(`str.strip`, `str.startswith`, `str.endswith`, `str.lower`, `in`): these are
structurally recursive and therefore evaluate on concrete inputs, unlike the
byte-position `Substring` machinery. -/
/-- Python `str.strip()`: drop leading and trailing whitespace. -/
def pyStrip (v : String) : String :=
  let a := v.data.dropWhile Char.isWhitespace
  String.mk ((a.reverse.dropWhile Char.isWhitespace).reverse)

/-- Python `str.startswith(p)`. -/
def pyStartsWith (v p : String) : Bool := v.data.take p.data.length == p.data

/-- Python `str.endswith(p)`. -/
def pyEndsWith (v p : String) : Bool :=
  (v.data.reverse.take p.data.length) == p.data.reverse

/-- Python `str.lower()` (ASCII, which is all the labels use). -/
def pyLower (v : String) : String := String.mk (v.data.map Char.toLower)

/-- Python `dict.get(k)` with default `None`. -/
def dget (m : PyDict) (k : String) : PyVal :=
  match m.find? (fun p => p.1 == k) with
  | some p => p.2
  | none => .null

/-- Python `dict[k]`, raising `KeyError` when the key is absent. -/
def dgetIdx (m : PyDict) (k : String) : Except PyErr PyVal :=
  match m.find? (fun p => p.1 == k) with
  | some p => .ok p.2
  | none => .error (.keyError k)

/-- Field lookup on a JSON value, for theorem statements: `some v` when the
value is a dict with the key, else `none`. -/
def objGet : PyVal → String → Option PyVal
  | .obj fs, k => (fs.find? (fun p => p.1 == k)).map (fun p => p.2)
  | _, _ => Option.none

def PyVal.isDict : PyVal → Bool
  | .obj _ => true
  | _ => false

/-- Python `type(v).__name__`-style tag, used in error/log messages. -/
def pyTypeName : PyVal → String
  | .null => "NoneType"
  | .b _ => "bool"
  | .i _ => "int"
  | .f _ => "float"
  | .s _ => "str"
  | .arr _ => "list"
  | .obj _ => "dict"

/-- Python `len(v)`: defined for strings, lists and dicts, `TypeError`
otherwise. -/
def lenOf : PyVal → Except PyErr Nat
  | .s v => .ok v.length
  | .arr xs => .ok xs.length
  | .obj fs => .ok fs.length
  | v => .error (.typeError (pyTypeName v))

/-- Render of a Python `float` (kept exact as a rational): integral values get
a trailing `.0`, terminating decimals are printed in full; a non-terminating
rational (unreachable from parsed decimals) falls back to `num/den`. -/
def floatStr (q : ℚ) : String :=
  let sign := if q.num < 0 then "-" else ""
  let n := q.num.natAbs
  let d := q.den
  if d == 1 then sign ++ toString n ++ ".0"
  else
    match (List.range 30).find? (fun k => (10 ^ k) % d == 0) with
    | some k =>
        let scaled := n * (10 ^ k) / d
        let ip := scaled / 10 ^ k
        let fp := scaled % 10 ^ k
        let fpStr := toString fp
        let pad := String.mk (List.replicate (k - fpStr.length) '0')
        sign ++ toString ip ++ "." ++ pad ++ fpStr
    | none => sign ++ toString n ++ "/" ++ toString d

/-- Embeds `repr` of a Python string: quoted with single quotes, or double quotes when
the text contains a single quote but no double quote (inner escaping of the
rare remaining cases is not modelled; no claim exercises it). -/
def pyStrQuote (v : String) : String :=
  let sq := Char.ofNat 39
  let dq := Char.ofNat 34
  if v.data.contains sq && !v.data.contains dq then
    String.mk (dq :: v.data) ++ String.mk [dq]
  else
    String.mk (sq :: v.data) ++ String.mk [sq]

mutual

/-- Python `repr()` of a JSON-shaped value. -/
def PyVal.reprOf : PyVal → String
  | .null => "None"
  | .b true => "True"
  | .b false => "False"
  | .i n => toString n
  | .f q => floatStr q
  | .s v => pyStrQuote v
  | .arr xs => "[" ++ PyVal.reprL xs ++ "]"
  | .obj fs => String.mk [Char.ofNat 123] ++ PyVal.reprF fs ++ String.mk [Char.ofNat 125]

def PyVal.reprL : List PyVal → String
  | [] => ""
  | [x] => x.reprOf
  | x :: xs => x.reprOf ++ ", " ++ PyVal.reprL xs

def PyVal.reprF : List (String × PyVal) → String
  | [] => ""
  | [(k, v)] => pyStrQuote k ++ ": " ++ v.reprOf
  | (k, v) :: fs => pyStrQuote k ++ ": " ++ v.reprOf ++ ", " ++ PyVal.reprF fs

end

/-- Python `str()`: the string itself for `str` values, `repr` otherwise
(for the builtin types appearing here `str` and `repr` agree). -/
def PyVal.strOf : PyVal → String
  | .s v => v
  | x => x.reprOf

/-! ## `json.loads`

A recursive-descent JSON parser over the character list, with a fuel
parameter to bound the recursion (the fuel passed by `jsonParse` always
suffices since every step consumes input). Mirrors Python's `json.loads`
on the JSON grammar: objects, arrays, double-quoted strings with escapes,
numbers (`int` when integral in form, `float` otherwise), literals. -/
def jsonWs (c : Char) : Bool :=
  c == ' ' || c == Char.ofNat 9 || c == Char.ofNat 10 || c == Char.ofNat 13

def skipWs : List Char → List Char
  | [] => []
  | c :: cs => if jsonWs c then skipWs cs else c :: cs

def digitVal (c : Char) : Nat := c.toNat - 48

def natOfDigits (ds : List Char) : Nat :=
  ds.foldl (fun acc c => acc * 10 + digitVal c) 0

def hexDigitVal (c : Char) : Option Nat :=
  if c.isDigit then some (c.toNat - 48)
  else if 'a' ≤ c && c ≤ 'f' then some (c.toNat - 87)
  else if 'A' ≤ c && c ≤ 'F' then some (c.toNat - 55)
  else Option.none

/-- Parse the body of a JSON string (after the opening quote), returning the
decoded characters and the remaining input. -/
def parseStrChars : Nat → List Char → Option (List Char × List Char)
  | 0, _ => Option.none
  | _ + 1, [] => Option.none
  | fuel + 1, c :: cs =>
    if c == Char.ofNat 34 then some ([], cs)
    else if c == Char.ofNat 92 then
      match cs with
      | [] => Option.none
      | e :: cs2 =>
        let simple : Option Char :=
          if e == Char.ofNat 34 then some (Char.ofNat 34)
          else if e == Char.ofNat 92 then some (Char.ofNat 92)
          else if e == '/' then some '/'
          else if e == 'b' then some (Char.ofNat 8)
          else if e == 'f' then some (Char.ofNat 12)
          else if e == 'n' then some (Char.ofNat 10)
          else if e == 'r' then some (Char.ofNat 13)
          else if e == 't' then some (Char.ofNat 9)
          else Option.none
        match simple with
        | some ch => (parseStrChars fuel cs2).map (fun p => (ch :: p.1, p.2))
        | Option.none =>
          if e == 'u' then
            match cs2 with
            | h1 :: h2 :: h3 :: h4 :: cs3 =>
              match hexDigitVal h1, hexDigitVal h2, hexDigitVal h3, hexDigitVal h4 with
              | some a, some b2, some c3, some d =>
                let code := ((a * 16 + b2) * 16 + c3) * 16 + d
                (parseStrChars fuel cs3).map (fun p => (Char.ofNat code :: p.1, p.2))
              | _, _, _, _ => Option.none
            | _ => Option.none
          else Option.none
    else (parseStrChars fuel cs).map (fun p => (c :: p.1, p.2))

/-- Parse a JSON number. Integral-form tokens become Python `int`s, tokens with
a fraction or exponent become `float`s (kept exact as rationals). -/
def parseNumber (cs : List Char) : Option (PyVal × List Char) :=
  let (neg, cs1) :=
    match cs with
    | c :: rest => if c == '-' then (true, rest) else (false, cs)
    | [] => (false, cs)
  let intDs := cs1.takeWhile Char.isDigit
  let cs2 := cs1.dropWhile Char.isDigit
  if intDs.isEmpty then Option.none
  else
    let ip : Nat := natOfDigits intDs
    let (fracDs, cs3) :=
      match cs2 with
      | c :: rest =>
        if c == '.' then (rest.takeWhile Char.isDigit, rest.dropWhile Char.isDigit)
        else ([], cs2)
      | [] => ([], cs2)
    if cs3.length < cs2.length && fracDs.isEmpty then Option.none
    else
      let (expSign, expDs, cs4) :=
        match cs3 with
        | c :: rest =>
          if c == 'e' || c == 'E' then
            match rest with
            | d :: rest2 =>
              if d == '+' then (1, rest2.takeWhile Char.isDigit, rest2.dropWhile Char.isDigit)
              else if d == '-' then (-1, rest2.takeWhile Char.isDigit, rest2.dropWhile Char.isDigit)
              else (1, rest.takeWhile Char.isDigit, rest.dropWhile Char.isDigit)
            | [] => (1, ([] : List Char), cs3)
          else (1, ([] : List Char), cs3)
        | [] => (1, ([] : List Char), cs3)
      let hasExp := cs4.length < cs3.length
      if hasExp && expDs.isEmpty then Option.none
      else if fracDs.isEmpty && !hasExp then
        some (.i (if neg then -(ip : Int) else (ip : Int)), cs2)
      else
        let baseNum : Nat := ip * 10 ^ fracDs.length + natOfDigits fracDs
        let eAbs : Nat := natOfDigits expDs
        let num : Nat := if (expSign : Int) ≥ 0 then baseNum * 10 ^ eAbs else baseNum
        let den : Nat :=
          if (expSign : Int) ≥ 0 then 10 ^ fracDs.length else 10 ^ fracDs.length * 10 ^ eAbs
        some (.f (mkRat (if neg then -(num : Int) else (num : Int)) den), cs4)

def expectLit (lit : List Char) (cs : List Char) : Option (List Char) :=
  if cs.take lit.length == lit then some (cs.drop lit.length) else Option.none

mutual

/-- Parse one JSON value (after skipping leading whitespace). -/
def parseVal : Nat → List Char → Option (PyVal × List Char)
  | 0, _ => Option.none
  | fuel + 1, cs =>
    match skipWs cs with
    | [] => Option.none
    | c :: rest =>
      if c == 'n' then (expectLit ['u', 'l', 'l'] rest).map (fun r => (.null, r))
      else if c == 't' then (expectLit ['r', 'u', 'e'] rest).map (fun r => (.b true, r))
      else if c == 'f' then (expectLit ['a', 'l', 's', 'e'] rest).map (fun r => (.b false, r))
      else if c == Char.ofNat 34 then
        (parseStrChars (rest.length + 1) rest).map (fun p => (.s (String.mk p.1), p.2))
      else if c == '[' then
        match skipWs rest with
        | ']' :: r2 => some (.arr [], r2)
        | r1 => (parseItems fuel r1).map (fun p => (.arr p.1, p.2))
      else if c == Char.ofNat 123 then
        match skipWs rest with
        | d :: r2 =>
          if d == Char.ofNat 125 then some (.obj [], r2)
          else (parseFields fuel (d :: r2)).map (fun p => (.obj p.1, p.2))
        | [] => Option.none
      else parseNumber (c :: rest)

/-- Parse the comma-separated items of a non-empty JSON array, consuming the
closing bracket. -/
def parseItems : Nat → List Char → Option (List PyVal × List Char)
  | 0, _ => Option.none
  | fuel + 1, cs =>
    match parseVal fuel cs with
    | Option.none => Option.none
    | some (v, r) =>
      match skipWs r with
      | ',' :: r2 => (parseItems fuel r2).map (fun p => (v :: p.1, p.2))
      | ']' :: r2 => some ([v], r2)
      | _ => Option.none

/-- Parse the fields of a non-empty JSON object, consuming the closing
brace. -/
def parseFields : Nat → List Char → Option (List (String × PyVal) × List Char)
  | 0, _ => Option.none
  | fuel + 1, cs =>
    match skipWs cs with
    | c :: rest =>
      if c == Char.ofNat 34 then
        match parseStrChars (rest.length + 1) rest with
        | Option.none => Option.none
        | some (key, r1) =>
          match skipWs r1 with
          | ':' :: r2 =>
            match parseVal fuel r2 with
            | Option.none => Option.none
            | some (v, r3) =>
              match skipWs r3 with
              | ',' :: r4 => (parseFields fuel r4).map (fun p => ((String.mk key, v) :: p.1, p.2))
              | d :: r4 =>
                if d == Char.ofNat 125 then some ([(String.mk key, v)], r4)
                else Option.none
              | [] => Option.none
          | _ => Option.none
      else Option.none
    | [] => Option.none

end

/-- Embeds `json.loads`: parse a complete JSON document; any leftover non-whitespace
input or malformed syntax is a `JSONDecodeError` (modelled as `Except.error`
with the message Python prefixes). -/
def jsonParse (v : String) : Except String PyVal :=
  match parseVal (2 * v.data.length + 2) v.data with
  | some (val, rest) =>
    if (skipWs rest).isEmpty then .ok val else .error "Extra data"
  | Option.none => .error "Expecting value"

/-! ## `src/data/collect_polymarket.py` -/
def PyVal.isNull : PyVal → Bool
  | .null => true
  | _ => false

def hasKey (fs : PyDict) (k : String) : Bool := fs.any (fun p => p.1 == k)

/-- Embeds `extract_condition_id`: `m.get("conditionId") or m.get("condition_id")`. -/
def extract_condition_id (m : PyDict) : PyVal :=
  pyOr (dget m "conditionId") (dget m "condition_id")

/-- Embeds `_is_yes_label`: `None` is not a yes-label; otherwise
`str(value).strip().lower()` must be one of `yes`/`y`/`true`/`1`. -/
def is_yes_label : PyVal → Bool
  | .null => false
  | v =>
    let sl := pyLower (pyStrip v.strOf)
    sl == "yes" || sl == "y" || sl == "true" || sl == "1"

/-- The label-field alias list of `_token_label`, in source order. -/
def labelKeys : List String := ["outcome", "outcomeName", "name", "title", "label"]

/-- Embeds `_token_label`: the first non-`None` label field, stringified; `None`
otherwise. -/
def token_label (t : PyDict) : PyVal :=
  match labelKeys.find? (fun k => !(dget t k).isNull) with
  | some k => .s (dget t k).strOf
  | Option.none => .null

/-- Embeds `_maybe_parse_json_list`: native lists pass through; strings are stripped,
bracket-guarded and `json.loads`-parsed, treated as absent on parse failure or
a non-list parse; everything else is absent. -/
def maybe_parse_json_list : PyVal → Option (List PyVal)
  | .arr xs => some xs
  | .s v =>
    let t := pyStrip v
    if pyStartsWith t "[" && pyEndsWith t "]" then
      match jsonParse t with
      | .ok (.arr l) => some l
      | .ok _ => Option.none
      | .error _ => Option.none
    else Option.none
  | _ => Option.none

/-- The direct token-ID alias keys of `extract_clob_token_ids`, in source
order. -/
def directTokenKeys : List String :=
  ["clobTokenIds", "clob_token_ids", "outcomeTokenIds", "outcome_token_ids"]

/-- The per-outcome ID alias keys of `extract_clob_token_ids`, in source
order. -/
def idKeys : List String := ["tokenId", "token_id", "clobTokenId", "clob_token_id", "id"]

/-- The direct-field loop of `extract_clob_token_ids` step 1: first key whose
`_maybe_parse_json_list` is truthy wins; under `yes_only` the function then
returns `[]` (the shape has no labels), otherwise the stringified elements. -/
def extractDirect (m : PyDict) (yes_only : Bool) : List String → Option (List PyVal)
  | [] => Option.none
  | k :: ks =>
    match maybe_parse_json_list (dget m k) with
    | some v =>
      if v.isEmpty then extractDirect m yes_only ks
      else if yes_only then some []
      else some (v.map (fun x => .s x.strOf))
    | Option.none => extractDirect m yes_only ks

/-- The nested-`market` loop of `extract_clob_token_ids` step 4 (the source's
comment numbering): first truthy key's stringified elements. -/
def extractNested (mk : PyDict) : List String → Option (List PyVal)
  | [] => Option.none
  | k :: ks =>
    match maybe_parse_json_list (dget mk k) with
    | some v =>
      if v.isEmpty then extractNested mk ks
      else some (v.map (fun x => .s x.strOf))
    | Option.none => extractNested mk ks

/-- The per-outcome extraction of `extract_clob_token_ids` step 2: non-dict
entries are skipped, under `yes_only` non-yes-labelled entries are skipped,
otherwise the first non-`None` ID alias is stringified and collected. -/
def outcomeId (yes_only : Bool) : PyVal → Option PyVal
  | .obj t =>
    if yes_only && !is_yes_label (token_label t) then Option.none
    else
      match idKeys.find? (fun k => !(dget t k).isNull) with
      | some k => some (.s (dget t k).strOf)
      | Option.none => Option.none
  | _ => Option.none

/-- The `outcomes` branch of `extract_clob_token_ids` step 2: a truthy parsed
`outcomes` list is scanned with `outcomeId`; otherwise `[]`. -/
def outcomesIds (m : PyDict) (yes_only : Bool) : List PyVal :=
  match maybe_parse_json_list (dget m "outcomes") with
  | some os => if os.isEmpty then [] else os.filterMap (outcomeId yes_only)
  | Option.none => []

/-- The nested-`market` fallback of `extract_clob_token_ids`: only entered
when the earlier shapes produced nothing; `[]` when the `market` field is not
a dict or has no truthy token field. -/
def nestedIds (m : PyDict) : List PyVal :=
  match dget m "market" with
  | .obj mk =>
    match extractNested mk ["clobTokenIds", "outcomeTokenIds"] with
    | some r => r
    | Option.none => []
  | _ => []

/-- Embeds `extract_clob_token_ids(m, yes_only)`: the three-shape priority cascade of
the source — direct list fields, then the `outcomes` object list, then a
nested `market` object — returning the first non-empty result and `[]` when
nothing matches. Total: the only fallible step (`json.loads`) is caught inside
`_maybe_parse_json_list`. -/
def extract_clob_token_ids (m : PyDict) (yes_only : Bool) : List PyVal :=
  match extractDirect m yes_only directTokenKeys with
  | some r => r
  | Option.none =>
    let ids := outcomesIds m yes_only
    if !ids.isEmpty then ids else nestedIds m

/-- Embeds `fetch_market_details` applied to an already-obtained Gamma response (the
HTTP call is the `Except`): failures and non-dict shapes degrade to `None`, a
non-empty list yields its dict head. -/
def market_details_of : Except PyErr PyVal → Option PyDict
  | .error _ => Option.none
  | .ok (.obj fs) => some fs
  | .ok (.arr (x :: _)) =>
    match x with
    | .obj fs => some fs
    | _ => Option.none
  | .ok _ => Option.none

/-- The response normalization of `fetch_prices_history`: a dict containing
`history` passes through unchanged, a bare list is wrapped as the history,
anything else degrades to an empty history. -/
def fetch_prices_history_norm (data : PyVal) : PyVal :=
  match data with
  | .obj fs => if hasKey fs "history" then .obj fs else .obj [("history", .arr [])]
  | .arr xs => .obj [("history", .arr xs)]
  | _ => .obj [("history", .arr [])]

/-- Embeds `parse_market_row`: market and condition identifiers from a CSV row via
truthiness alias chains, stringified when not `None`. -/
def parse_market_row (row : PyDict) : Option String × Option String :=
  let mv := pyOr (dget row "id") (pyOr (dget row "market_id") (dget row "marketId"))
  let cv := pyOr (dget row "condition_id") (dget row "conditionId")
  ((if mv.isNull then Option.none else some mv.strOf),
   (if cv.isNull then Option.none else some cv.strOf))

/-- Embeds `resolve_token_ids_from_csv_row`, with the Gamma `GET /markets/{id}` call
abstracted as an oracle from market id to response: note the source has no
condition-ID fallback — with no market id (or no usable detail) it returns
`[]`. -/
def resolve_token_ids_from_csv_row (gamma : String → Except PyErr PyVal)
    (row : PyDict) (yes_only : Bool) : List PyVal × Option PyDict :=
  let ids := parse_market_row row
  if ids.1.isNone && ids.2.isNone then ([], Option.none)
  else
    let detail : Option PyDict :=
      match ids.1 with
      | some mid => market_details_of (gamma mid)
      | Option.none => Option.none
    match detail with
    | some fs =>
      if fs.isEmpty then ([], some fs)
      else
        let token_ids := extract_clob_token_ids fs yes_only
        if !token_ids.isEmpty then (token_ids, some fs) else ([], some fs)
    | Option.none => ([], Option.none)

/-! ## The HTTP retry clients (`http_get`)

Both `src/data/collect_polymarket.py` and the two notebook scripts define an
`http_get` with the same skeleton: up to `5` attempts; statuses in
`{429,500,502,503,504}` sleep and retry without touching `last_err`; any other
outcome goes through `raise_for_status()` / `r.json()`, whose exceptions are
caught by the blanket `except`, recorded in `last_err`, slept on and retried;
exhaustion raises `RuntimeError` carrying the URL and `last_err`. The
transport is an oracle from attempt number to outcome; sleeps are collected
(in seconds, exact rationals), and `calls` counts transport invocations. -/
/-- One outcome of `requests.get`: a response with a status code and a JSON
body (a body parse error models `r.json()` raising), or a raised transport
exception. -/
inductive TOutcome where
  | resp (status : Nat) (body : Except String PyVal)
  | exc (msg : String)

/-- The retryable status tuple `(429, 500, 502, 503, 504)`. -/
def retryStatuses : List Nat := [429, 500, 502, 503, 504]

/-- Observable behaviour of one `http_get` call. -/
structure GetResult where
  sleeps : List ℚ
  calls : Nat
  result : Except PyErr PyVal

/-- The retry loop of `http_get`, parameterized by the status-branch and
exception-branch wait functions (the two script families differ exactly
there). `as` is the list of remaining attempt numbers, `lastErr` the current
`last_err`. -/
def httpGetGo (statusWait excWait : Nat → ℚ) (transport : Nat → TOutcome)
    (url : String) : List Nat → Option PyErr → GetResult
  | [], lastErr => ⟨[], 0, .error (.getFailed url lastErr)⟩
  | a :: rest, lastErr =>
    match transport a with
    | .resp st body =>
      if retryStatuses.contains st then
        let r := httpGetGo statusWait excWait transport url rest lastErr
        ⟨statusWait a :: r.sleeps, r.calls + 1, r.result⟩
      else if 400 ≤ st && st < 600 then
        let r := httpGetGo statusWait excWait transport url rest (some (.httpError st))
        ⟨excWait a :: r.sleeps, r.calls + 1, r.result⟩
      else
        match body with
        | .ok v => ⟨[], 1, .ok v⟩
        | .error m =>
          let r := httpGetGo statusWait excWait transport url rest (some (.valueError m))
          ⟨excWait a :: r.sleeps, r.calls + 1, r.result⟩
    | .exc m =>
      let r := httpGetGo statusWait excWait transport url rest (some (.transportExc m))
      ⟨excWait a :: r.sleeps, r.calls + 1, r.result⟩

/-- Embeds `range(1, MAX_RETRIES + 1)`. -/
def attemptNumbers (maxRetries : Nat) : List Nat := List.range' 1 maxRetries

/-- Embeds `1.5 * attempt`, the linear wait (`DEFAULT_BACKOFF_SEC = BACKOFF_SEC =
1.5`; the product is exact in binary floating point, so the rational is the
Python value). -/
def linearWait (a : Nat) : ℚ := mkRat (3 * a) 2

/-- Embeds `1.5 * 2 ** (attempt - 1)`, the exponential status-branch wait of the
notebook scripts. -/
def expWait (a : Nat) : ℚ := mkRat (3 * 2 ^ (a - 1)) 2

/-- Embeds `http_get` of `src/data/collect_polymarket.py`: linear waits in both the
status branch and the exception branch, 5 attempts. -/
def collect_http_get (transport : Nat → TOutcome) (url : String) : GetResult :=
  httpGetGo linearWait linearWait transport url (attemptNumbers 5) Option.none

/-- Embeds `http_get` of `src/notebooks/timeseries_analysis/fetch_prices_by_tag.py`
(and, identically, `fetch_markets_by_tag_id.py`): exponential wait on
retryable statuses, linear wait on caught exceptions, 5 attempts. -/
def tag_http_get (transport : Nat → TOutcome) (url : String) : GetResult :=
  httpGetGo expWait linearWait transport url (attemptNumbers 5) Option.none

/-! ## `fetch_markets_by_tag_id.py` and the notebook price fetcher -/
/-- Embeds `fetch_price_history` of `fetch_prices_by_tag.py` applied to an
already-obtained response (`http_get`'s own behaviour is modelled above):
`resp.get("history") or []` requires a dict — a list (or any other non-dict)
response raises `AttributeError`. The value returned is whatever the
`history` field holds when truthy, else `[]`. -/
def fetch_price_history_of (resp : PyVal) : Except PyErr PyVal :=
  match resp with
  | .obj fs => .ok (pyOr (dget fs "history") (.arr []))
  | v => .error (.attributeError (pyTypeName v))

/-- The pagination loop of `fetch_markets` (`fetch_markets_by_tag_id.py`),
with the page payloads as an oracle indexed by call number and an explicit
fuel for the `while` loop (which Python does not bound: a steady stream of
non-empty batches of non-dict entries never terminates); `Option.none` is
fuel exhaustion. A non-list payload raises
`RuntimeError("Unexpected response type: ...")`; an empty batch breaks; dict
entries accumulate; the result is truncated to `max_markets`. -/
def fetchMarketsGo (pages : Nat → PyVal) (maxMarkets : Nat) :
    Nat → Nat → List PyVal → Option (Except PyErr (List PyVal))
  | 0, _, _ => Option.none
  | fuel + 1, call, acc =>
    if acc.length < maxMarkets then
      match pages call with
      | .arr batch =>
        if batch.isEmpty then some (.ok (acc.take maxMarkets))
        else fetchMarketsGo pages maxMarkets fuel (call + 1) (acc ++ batch.filter PyVal.isDict)
      | v => some (.error (.runtimeError ("Unexpected response type: " ++ pyTypeName v)))
    else some (.ok (acc.take maxMarkets))

/-- Embeds `fetch_markets(tag_id, max_markets)` with page oracle and fuel. -/
def fetch_markets (pages : Nat → PyVal) (maxMarkets fuel : Nat) :
    Option (Except PyErr (List PyVal)) :=
  fetchMarketsGo pages maxMarkets fuel 0 []

/-! ## The resumable price-fetch run (`fetch_prices_by_tag.py` `main`)

The output file is modelled as the list of its parsed JSONL lines (the sink
appends one line per written row, so the final file is the initial lines
followed by the appended rows); the CLOB price API is an oracle from token id
to response payload; `datetime.now()` is the `fetchedAt` parameter. -/
/-- Embeds `extract_tokens` of `fetch_prices_by_tag.py`: `clobTokenIds or tokens or
[]` by truthiness, a string is `json.loads`-parsed (`[]` on decode error),
non-lists and empty lists give `[]`, and entries are collected from dicts
(`token_id or id`, stringified, when truthy) and non-empty strings. -/
def extract_tokens (m : PyDict) : List String :=
  let raw := pyOr (dget m "clobTokenIds") (pyOr (dget m "tokens") (.arr []))
  let parsed : Option PyVal :=
    match raw with
    | .s v =>
      match jsonParse v with
      | .ok p => some p
      | .error _ => Option.none
    | v => some v
  match parsed with
  | Option.none => []
  | some v =>
    match v with
    | .arr xs =>
      if xs.isEmpty then []
      else
        xs.filterMap (fun t =>
          match t with
          | .obj td =>
            let tid := pyOr (dget td "token_id") (dget td "id")
            if tid.truthy then some tid.strOf else Option.none
          | .s u => if u != "" then some u else Option.none
          | _ => Option.none)
    | _ => []

/-- Embeds `row["token_id"]` on a parsed JSONL line: `KeyError` when the key is
absent, `TypeError` when the line is not a dict. -/
def rowTokenId : PyVal → Except PyErr PyVal
  | .obj fs => dgetIdx fs "token_id"
  | v => .error (.typeError (pyTypeName v))

/-- Embeds `load_already_fetched`: scan the existing output lines collecting
`row["token_id"]` (Python builds a `set`; membership below uses Python `==`,
so the insertion-ordered list is an equivalent model). -/
def load_already_fetched : List PyVal → Except PyErr (List PyVal)
  | [] => .ok []
  | r :: rs =>
    match rowTokenId r with
    | .error e => .error e
    | .ok v =>
      match load_already_fetched rs with
      | .error e => .error e
      | .ok rest => .ok (v :: rest)

/-- Python `tid in already_done` for the work-list filter. -/
def alreadyHas (already : List PyVal) (tid : String) : Bool :=
  already.any (fun a => PyVal.beq (.s tid) a)

/-- The work-list construction of `main`: for each market (a non-dict line
raises `AttributeError` at `m.get`), pair
`str(m.get("id") or m.get("conditionId") or "")` with each extracted token
not already fetched. -/
def buildWork (already : List PyVal) : List PyVal → Except PyErr (List (String × String))
  | [] => .ok []
  | m :: ms =>
    match m with
    | .obj md =>
      let mid := (pyOr (dget md "id") (pyOr (dget md "conditionId") (.s ""))).strOf
      let tids := (extract_tokens md).filterMap
        (fun tid => if alreadyHas already tid then Option.none else some (mid, tid))
      match buildWork already ms with
      | .error e => .error e
      | .ok rest => .ok (tids ++ rest)
    | v => .error (.attributeError (pyTypeName v))

/-- The output row written per kept token, in the source's field order. -/
def priceRow (mid tid interval : String) (fidelity : Int) (n : Nat)
    (fetchedAt : String) (hist : PyVal) : PyVal :=
  .obj [("market_id", .s mid), ("token_id", .s tid), ("interval", .s interval),
        ("fidelity_min", .i fidelity), ("n_candles", .i n), ("fetched_at", .s fetchedAt),
        ("history", hist)]

/-- The per-token loop of `main`: fetch the token's history, drop it (no row)
when `len(history) < min_candles`, otherwise append a row whose `n_candles`
is `len(history)`. -/
def processWork (priceResp : String → PyVal) (interval : String)
    (fidelity minCandles : Int) (fetchedAt : String) :
    List (String × String) → Except PyErr (List PyVal)
  | [] => .ok []
  | (mid, tid) :: rest =>
    match fetch_price_history_of (priceResp tid) with
    | .error e => .error e
    | .ok hist =>
      match lenOf hist with
      | .error e => .error e
      | .ok n =>
        match processWork priceResp interval fidelity minCandles fetchedAt rest with
        | .error e => .error e
        | .ok tail =>
          if (n : Int) < minCandles then .ok tail
          else .ok (priceRow mid tid interval fidelity n fetchedAt hist :: tail)

/-- One full (completed) run of `main`: load the resume set, build the work
list, process it, and leave the output file as the initial lines plus the
appended rows. -/
def run_fetch_prices (priceResp : String → PyVal) (interval : String)
    (fidelity minCandles : Int) (fetchedAt : String)
    (markets file0 : List PyVal) : Except PyErr (List PyVal) :=
  match load_already_fetched file0 with
  | .error e => .error e
  | .ok already =>
    match buildWork already markets with
    | .error e => .error e
    | .ok work =>
      match processWork priceResp interval fidelity minCandles fetchedAt work with
      | .error e => .error e
      | .ok rows => .ok (file0 ++ rows)

/-- The `token_id` values of a list of output lines (all lines written by the
program have one). -/
def outTokens (rows : List PyVal) : List PyVal :=
  rows.filterMap (fun r => (rowTokenId r).toOption)

/-- A one-point price history, for concrete scenarios. -/
def onePoint : PyVal := .arr [.obj [("t", .i 1)]]

/-- A fifteen-point price history, for concrete scenarios. -/
def fifteenPoints : PyVal := .arr (List.replicate 15 (.obj [("t", .i 1)]))

/-- An existing output file holding tokens `A` and `B`, for the resume
scenario. -/
def fileAB : List PyVal := [.obj [("token_id", .s "A")], .obj [("token_id", .s "B")]]

/-- A market requesting tokens `A`, `B`, `C`, for the resume scenario. -/
def marketABC : PyVal :=
  .obj [("id", .s "m"), ("clobTokenIds", .arr [.s "A", .s "B", .s "C"])]

/-- The price oracle of the C6 scenario: token `A` has a one-point history,
every other token fifteen points. -/
def c6P : String → PyVal := fun tid =>
  if tid == "A" then .obj [("history", onePoint)] else .obj [("history", fifteenPoints)]

/-! ## `src/notebooks/timeseries_analysis/filter_markets.py`

The wall clock (`datetime.now(tz=utc)`) is an explicit parameter `now`, an
aware timestamp in epoch seconds (an exact rational). Parsed datetimes carry
their epoch seconds and an "aware" flag: Python raises `TypeError` when
comparing or subtracting aware and naive datetimes, and `_get_active_days`
does both. Rational arithmetic is spelled with `mkRat` so that concrete runs
evaluate. -/
/-- Embeds `a - b` on exact rationals. -/
def ratSub (a b : ℚ) : ℚ := mkRat (a.num * b.den - b.num * a.den) (a.den * b.den)

/-- Embeds `a / n` for a positive integer denominator. -/
def ratDivNat (a : ℚ) (n : Nat) : ℚ := mkRat a.num (a.den * n)

/-- Embeds `str.replace("Z", "+00:00")` (applied before `fromisoformat`). -/
def replaceZ (cs : List Char) : List Char :=
  cs.flatMap (fun c => if c == 'Z' then "+00:00".data else [c])

/-- Two-digit number. -/
def d2 (a b : Char) : Option Nat :=
  if a.isDigit && b.isDigit then some ((a.toNat - 48) * 10 + (b.toNat - 48))
  else Option.none

/-- Days from 1970-01-01 of a civil date (years ≥ 1; the standard
era-of-400-years computation). -/
def daysFromCivil (y m d : Nat) : Int :=
  let yy : Nat := if m ≤ 2 then y - 1 else y
  let era : Nat := yy / 400
  let yoe : Nat := yy % 400
  let mp : Nat := if 3 ≤ m then m - 3 else m + 9
  let doy : Nat := (153 * mp + 2) / 5 + d - 1
  let doe : Nat := yoe * 365 + yoe / 4 - yoe / 100 + doy
  ((era * 146097 + doe : Nat) : Int) - 719468

/-- The time-of-day / offset tail of an ISO-8601 timestamp:
`HH:MM[:SS[.ffffff]][±HH:MM]`. Returns local seconds (numerator over a
power-of-ten denominator), the offset in seconds, and the aware flag. -/
def isoTimeTail : List Char → Option (ℚ × Int × Bool)
  | h1 :: h2 :: ':' :: m1 :: m2 :: rest =>
    match d2 h1 h2, d2 m1 m2 with
    | some hh, some mi =>
      if hh < 24 && mi < 60 then
        let secPart : Option (Nat × Nat × Nat × List Char) :=
          match rest with
          | ':' :: s1 :: s2 :: rest2 =>
            match d2 s1 s2 with
            | some ss =>
              if ss < 60 then
                match rest2 with
                | '.' :: rest3 =>
                  let fds := rest3.takeWhile Char.isDigit
                  if fds.isEmpty then Option.none
                  else some (ss, natOfDigits fds, fds.length, rest3.dropWhile Char.isDigit)
                | _ => some (ss, 0, 0, rest2)
              else Option.none
            | Option.none => Option.none
          | _ => some (0, 0, 0, rest)
        match secPart with
        | Option.none => Option.none
        | some (ss, fnum, flen, rest4) =>
          let localSec : ℚ :=
            mkRat (((hh * 3600 + mi * 60 + ss) * 10 ^ flen + fnum : Nat) : Int) (10 ^ flen)
          match rest4 with
          | [] => some (localSec, 0, false)
          | c :: o1 :: o2 :: ':' :: o3 :: o4 :: [] =>
            if c == '+' || c == '-' then
              match d2 o1 o2, d2 o3 o4 with
              | some oh, some om =>
                if oh < 24 && om < 60 then
                  let off : Int := (oh * 3600 + om * 60 : Nat)
                  some (localSec, if c == '-' then -off else off, true)
                else Option.none
              | _, _ => Option.none
            else Option.none
          | _ => Option.none
      else Option.none
    | _, _ => Option.none
  | _ => Option.none

/-- Embeds `datetime.fromisoformat` on the shapes the data uses
(`YYYY-MM-DD[ T...]`), returning aware-normalized epoch seconds and the aware
flag; malformed input is `Option.none` (Python's `ValueError`, caught by
`_parse_iso`). -/
def isoParse (v : String) : Option (ℚ × Bool) :=
  match v.data with
  | y1 :: y2 :: y3 :: y4 :: '-' :: m1 :: m2 :: '-' :: d1 :: e2 :: rest =>
    match d2 y1 y2, d2 y3 y4, d2 m1 m2, d2 d1 e2 with
    | some yh, some yl, some mo, some dd =>
      if 1 ≤ mo && mo ≤ 12 && 1 ≤ dd && dd ≤ 31 then
        let y := yh * 100 + yl
        let base : Int := daysFromCivil y mo dd * 86400
        match rest with
        | [] => some (mkRat base 1, false)
        | c :: rest2 =>
          if c == 'T' || c == ' ' then
            match isoTimeTail rest2 with
            | some (localSec, off, aware) =>
              some (mkRat (base * localSec.den + localSec.num - off * localSec.den)
                localSec.den, aware)
            | Option.none => Option.none
          else Option.none
      else Option.none
    | _, _, _, _ => Option.none
  | _ => Option.none

/-- Embeds `_parse_iso`: falsy input gives `None`; non-strings raise inside the
`try` (`.replace` on a non-`str`) and are caught, also giving `None`; strings
are `Z`-normalized and parsed, `None` on `ValueError`. -/
def parse_iso (v : PyVal) : Option (ℚ × Bool) :=
  if !v.truthy then Option.none
  else
    match v with
    | .s u => isoParse (String.mk (replaceZ u.data))
    | _ => Option.none

/-- Embeds `float(str)` on the numeric forms (`[sign]digits[.digits][e[sign]digits]`,
also `.5` / `5.`), exact as a rational; other accepted spellings such as
`inf`/`nan` are not modelled (no claim touches them). -/
def parseFloat (v : String) : Option ℚ :=
  let cs := (pyStrip v).data
  let (neg, cs1) :=
    match cs with
    | c :: rest => if c == '-' then (true, rest) else if c == '+' then (false, rest)
                   else (false, cs)
    | [] => (false, cs)
  let intDs := cs1.takeWhile Char.isDigit
  let cs2 := cs1.dropWhile Char.isDigit
  let (fracDs, cs3) :=
    match cs2 with
    | c :: rest =>
      if c == '.' then (rest.takeWhile Char.isDigit, rest.dropWhile Char.isDigit)
      else (([] : List Char), cs2)
    | [] => (([] : List Char), cs2)
  if intDs.isEmpty && fracDs.isEmpty then Option.none
  else
    let (expSign, expDs, cs4) :=
      match cs3 with
      | c :: rest =>
        if c == 'e' || c == 'E' then
          match rest with
          | d :: rest2 =>
            if d == '+' then ((1 : Int), rest2.takeWhile Char.isDigit, rest2.dropWhile Char.isDigit)
            else if d == '-' then ((-1 : Int), rest2.takeWhile Char.isDigit, rest2.dropWhile Char.isDigit)
            else ((1 : Int), rest.takeWhile Char.isDigit, rest.dropWhile Char.isDigit)
          | [] => ((1 : Int), ([] : List Char), cs3)
        else ((1 : Int), ([] : List Char), cs3)
      | [] => ((1 : Int), ([] : List Char), cs3)
    if !cs4.isEmpty then Option.none
    else if cs3.length ≠ cs4.length && expDs.isEmpty then Option.none
    else
      let baseNum : Nat := natOfDigits intDs * 10 ^ fracDs.length + natOfDigits fracDs
      let eAbs : Nat := natOfDigits expDs
      let num : Nat := if 0 ≤ expSign then baseNum * 10 ^ eAbs else baseNum
      let den : Nat :=
        if 0 ≤ expSign then 10 ^ fracDs.length else 10 ^ fracDs.length * 10 ^ eAbs
      some (mkRat (if neg then -(num : Int) else (num : Int)) den)

/-- Embeds `_safe_float`: numbers pass through (`bool` is an `int`), strings go
through `float()`, anything else (where `float()` raises `TypeError`) and
unparsable strings (`ValueError`) give `0.0`. -/
def safe_float : PyVal → ℚ
  | .i n => mkRat n 1
  | .f q => q
  | .b x => if x then mkRat 1 1 else mkRat 0 1
  | .s u =>
    match parseFloat u with
    | some q => q
    | Option.none => mkRat 0 1
  | _ => mkRat 0 1

/-- The volume alias fields of `_get_volume`, in source order. -/
def volumeFields : List String :=
  ["volume", "volumeNum", "volumeClob", "usdcSize", "totalVolume"]

/-- The alias loop of `_get_volume`: first field whose `_safe_float` is
positive. -/
def get_volume_go (m : PyDict) : List String → ℚ
  | [] => mkRat 0 1
  | fld :: rest =>
    let v := safe_float (dget m fld)
    if Rat.blt (mkRat 0 1) v then v else get_volume_go m rest

/-- Embeds `_get_volume`. -/
def get_volume (m : PyDict) : ℚ := get_volume_go m volumeFields

/-- Embeds `_get_active_days(m)` with the aware clock `now`: `None` without a
parseable start; `TypeError` when `min(now, end)` compares, or `ref - start`
subtracts, aware and naive datetimes; otherwise
`max(0.0, (ref - start).total_seconds() / 86400)`. -/
def get_active_days (now : ℚ) (m : PyDict) : Except PyErr (Option ℚ) :=
  let start := parse_iso (pyOr (dget m "createdAt") (pyOr (dget m "created_at") (dget m "startDate")))
  let stop := parse_iso (pyOr (dget m "endDate") (dget m "end_date"))
  match start with
  | Option.none => .ok Option.none
  | some (st, stAware) =>
    match stop with
    | some (en, enAware) =>
      if !enAware then .error (.typeError "cant compare offset-naive and offset-aware datetimes")
      else
        let ref := if Rat.blt en now then en else now
        if !stAware then
          .error (.typeError "unsupported operand type for aware and naive datetimes")
        else
          let days := ratDivNat (ratSub ref st) 86400
          .ok (some (if days.num < 0 then mkRat 0 1 else days))
    | Option.none =>
      if !stAware then
        .error (.typeError "unsupported operand type for aware and naive datetimes")
      else
        let days := ratDivNat (ratSub now st) 86400
        .ok (some (if days.num < 0 then mkRat 0 1 else days))

/-- Embeds `len(v) > 0` after the defensive parse in `_has_clob_tokens` — the `len`
of a non-sized value (e.g. a JSON number) raises `TypeError` outside the
`except`. -/
def lenPos (v : PyVal) : Except PyErr Bool :=
  match lenOf v with
  | .error e => .error e
  | .ok n => .ok (decide (0 < n))

/-- Embeds `_has_clob_tokens`: `tokens or clobTokenIds or []`; a string is
`json.loads`-parsed with `except Exception: return False`; then
`len(tokens) > 0`. -/
def has_clob_tokens (m : PyDict) : Except PyErr Bool :=
  let tokens := pyOr (dget m "tokens") (pyOr (dget m "clobTokenIds") (.arr []))
  match tokens with
  | .s u =>
    match jsonParse u with
    | .error _ => .ok false
    | .ok parsed => lenPos parsed
  | v => lenPos v

/-- Embeds `_get_n_outcomes`: `max(len(tokens), len(outcomes), 0)` after the same
defensive string parse (`except Exception: tokens = []`); its value is bound
but unused by `apply_filter`, yet its `len` calls can raise. -/
def get_n_outcomes (m : PyDict) : Except PyErr Nat :=
  let tokens := pyOr (dget m "tokens") (pyOr (dget m "clobTokenIds") (.arr []))
  let outcomes := pyOr (dget m "outcomes") (.arr [])
  let tokens2 :=
    match tokens with
    | .s u =>
      match jsonParse u with
      | .ok p => p
      | .error _ => .arr []
    | v => v
  match lenOf tokens2 with
  | .error e => .error e
  | .ok lt2 =>
    match lenOf outcomes with
    | .error e => .error e
    | .ok lo => .ok (max (max lt2 lo) 0)

/-- Embeds `f"{v:.0f}"` for the `volume_too_low` reason (nearest integer; the
half-even tie behaviour of Python's formatting is not modelled — ties do not
affect any claim). -/
def fmt0 (q : ℚ) : String :=
  if q.num < 0 then "-" ++ toString ((2 * q.num.natAbs + q.den) / (2 * q.den))
  else toString ((2 * q.num.natAbs + q.den) / (2 * q.den))

/-- Embeds `f"{v:.1f}"` for the `too_new` reason (same tie caveat). -/
def fmt1 (q : ℚ) : String :=
  let tenths : Nat := (2 * (q.num.natAbs * 10) + q.den) / (2 * q.den)
  let sign := if q.num < 0 then "-" else ""
  sign ++ toString (tenths / 10) ++ "." ++ toString (tenths % 10)

/-- Embeds `apply_filter(m, min_volume, min_active_days)` at clock `now`: the
source's check order — CLOB tokens, question/description, the (unused but
fallible) `_get_n_outcomes` binding, volume, active days. Non-dict lines
raise `AttributeError` at the first `.get`. -/
def apply_filter (now : ℚ) (m : PyVal) (min_volume min_active_days : ℚ) :
    Except PyErr (Bool × String) :=
  match m with
  | .obj md =>
    match has_clob_tokens md with
    | .error e => .error e
    | .ok false => .ok (false, "no_clob_tokens")
    | .ok true =>
      if !(pyOr (dget md "question") (dget md "description")).truthy then
        .ok (false, "no_question_or_description")
      else
        match get_n_outcomes md with
        | .error e => .error e
        | .ok _ =>
          let vol := get_volume md
          if Rat.blt vol min_volume then .ok (false, "volume_too_low:" ++ fmt0 vol)
          else
            match get_active_days now md with
            | .error e => .error e
            | .ok (some active) =>
              if Rat.blt active min_active_days then
                .ok (false, "too_new:" ++ fmt1 active ++ "_days")
              else .ok (true, "")
            | .ok Option.none => .ok (true, "")
  | v => .error (.attributeError (pyTypeName v))

/-- The main filter loop: keep the markets `apply_filter` passes, in input
order (rejection counting only feeds the summary file, not
`markets_filtered.jsonl`). -/
def filterKept (now min_volume min_active_days : ℚ) : List PyVal → Except PyErr (List PyVal)
  | [] => .ok []
  | m :: ms =>
    match apply_filter now m min_volume min_active_days with
    | .error e => .error e
    | .ok pr =>
      match filterKept now min_volume min_active_days ms with
      | .error e => .error e
      | .ok rest => .ok (if pr.1 then m :: rest else rest)

/-- The sort key `lambda m: _get_volume(m)` (kept markets are dicts — a
non-dict would already have raised inside `apply_filter`). -/
def keyOf : PyVal → ℚ
  | .obj md => get_volume md
  | _ => mkRat 0 1

/-- One insertion step of a stable descending sort by volume: `x` goes before
the first element it is not smaller than. Processing the input right-to-left
(`foldr`) keeps equal-volume elements in input order, which is exactly the
stability guarantee of Python's `list.sort(key=..., reverse=True)`; since
stable sorts are unique, this is the embedding of that call. -/
def sortInsert (x : PyVal) : List PyVal → List PyVal
  | [] => [x]
  | y :: ys => if Rat.blt (keyOf x) (keyOf y) then y :: sortInsert x ys else x :: y :: ys

/-- Embeds `filtered.sort(key=lambda m: _get_volume(m), reverse=True)`. -/
def sortByVolDesc (l : List PyVal) : List PyVal := l.foldr sortInsert []

/-- The `markets_filtered.jsonl` contents of one `filter_markets.py` run (as
parsed rows; the JSONL serialization of a row list is injective and
deterministic, so byte-identity of the files is equality of these lists). -/
def run_filter (now min_volume min_active_days : ℚ) (markets : List PyVal) :
    Except PyErr (List PyVal) :=
  match filterKept now min_volume min_active_days markets with
  | .error e => .error e
  | .ok kept => .ok (sortByVolDesc kept)

/-- The concrete market of the C7 scenario: created 2024-01-01, with tokens
and a question, volume fields absent. -/
def c7Market : PyVal :=
  .obj [("clobTokenIds", .arr [.s "a"]), ("question", .s "q"),
        ("createdAt", .s "2024-01-01T00:00:00+00:00")]

/-! ## The Token Resolver's condition-ID fallback (spec §4.3 step 3)

The spec describes the Token Resolver as the union of four near-duplicate
script revisions (~3,200 repository lines; the files under `src/` total about
half that), and the condition-ID fallback belongs to a revision that is not
among them: the present revision, `resolve_token_ids_from_csv_row`, stops
after the Gamma market-detail lookup. The fallback is therefore modelled from
the spec's words and verified against that model. -/
/-- Modelled from the spec: the three condition-ID parameter-name variants,
"`condition_id`, `conditionId`, `market`", tried in that order (missing from
`src/`: the condition-ID fallback of §4.3 step 3 lives in a script revision
not included under `src/`). -/
def conditionParamVariants : List String := ["condition_id", "conditionId", "market"]

/-- Modelled from the spec: order-preserving de-duplication of collected
token IDs (first occurrence wins; membership is Python `==`, matching the
`seen`-set idiom). -/
def dedupPreserveGo (seen : List PyVal) : List PyVal → List PyVal
  | [] => []
  | x :: xs =>
    if seen.any (fun a => PyVal.beq x a) then dedupPreserveGo seen xs
    else x :: dedupPreserveGo (x :: seen) xs

/-- Modelled from the spec: see `dedupPreserveGo`. -/
def dedupPreserve (l : List PyVal) : List PyVal := dedupPreserveGo [] l

/-- Modelled from the spec: the token IDs collected "from all returned
sub-records" of one condition-ID query — the Extractor run on each dict
sub-record, concatenated in order. `condApi v cid` is the upstream API's
response to a query using parameter name `v`. -/
def conditionCollected (condApi : String → String → List PyVal) (cid : String)
    (yes_only : Bool) (variant : String) : List PyVal :=
  (condApi variant cid).flatMap (fun r =>
    match r with
    | .obj fs => extract_clob_token_ids fs yes_only
    | _ => [])

/-- Modelled from the spec: try the variants in order, "stopping at the first
non-empty result", de-duplicating what that variant collected; the first
component of the result is the trace of variants actually queried. -/
def queryByConditionGo (condApi : String → String → List PyVal) (cid : String)
    (yes_only : Bool) : List String → List String × List PyVal
  | [] => ([], [])
  | v :: vs =>
    let collected := conditionCollected condApi cid yes_only v
    if collected.isEmpty then
      let r := queryByConditionGo condApi cid yes_only vs
      (v :: r.1, r.2)
    else ([v], dedupPreserve collected)

/-- Modelled from the spec: the condition-ID query of §4.3 step 3. -/
def query_by_condition (condApi : String → String → List PyVal) (cid : String)
    (yes_only : Bool) : List String × List PyVal :=
  queryByConditionGo condApi cid yes_only conditionParamVariants

/-- Modelled from the spec: the unified resolver of §4.3 — the Extractor on
the record itself, else the market-detail lookup re-extracted, else the
condition-ID fallback; identifiers come from the record's alias chains
(`parse_market_row`). Returns the resolved token IDs and the trace of
condition-ID variants queried (empty when the fallback was not reached). -/
def resolveSpec (detailApi : String → Except PyErr PyVal)
    (condApi : String → String → List PyVal) (row : PyDict) (yes_only : Bool) :
    List PyVal × List String :=
  let direct := extract_clob_token_ids row yes_only
  if !direct.isEmpty then (direct, [])
  else
    let ids := parse_market_row row
    let fromDetail : List PyVal :=
      match ids.1 with
      | some mid =>
        match market_details_of (detailApi mid) with
        | some fs => extract_clob_token_ids fs yes_only
        | Option.none => []
      | Option.none => []
    if !fromDetail.isEmpty then (fromDetail, [])
    else
      match ids.2 with
      | some cid =>
        let r := query_by_condition condApi cid yes_only
        (r.2, r.1)
      | Option.none => ([], [])


/-! ## Smoke-test examples -/

example : PyVal.beq (.arr [.s "a", .i 3]) (.arr [.s "a", .f 3]) = true := rfl

example : jsonParse "[\"111\", \"222\"]" = .ok (.arr [.s "111", .s "222"]) := rfl

example :
    jsonParse " \x7b\"a\": [1, true, null]\x7d " =
      .ok (.obj [("a", .arr [.i 1, .b true, .null])]) := rfl

example : PyVal.beq ((jsonParse "2.5").toOption.getD .null) (.f (mkRat 5 2)) = true := by
  decide

example : (jsonParse "[1, 2,]").isOk = false := rfl


/-! ## Theorems -/

/-! ### Lemmas about the extractor -/
@[simp]
theorem dget_cons (a : String) (b : PyVal) (rest : PyDict) (k : String) :
    dget ((a, b) :: rest) k = if a == k then b else dget rest k := by
  simp only [dget, List.find?]
  by_cases h : a == k <;> simp [h]

theorem extractDirect_eq_some_yes (m : PyDict) (ks : List String) (k : String) (v : List PyVal)
    (hk : k ∈ ks) (hv : maybe_parse_json_list (dget m k) = some v) (hne : v ≠ []) :
    extractDirect m true ks = some [] := by
  induction ks with
  | nil => cases hk
  | cons k0 ks ih =>
    rcases List.mem_cons.1 hk with h0 | h0
    · subst h0
      simp only [extractDirect, hv]
      simp [List.isEmpty_iff, hne]
    · simp only [extractDirect]
      cases h : maybe_parse_json_list (dget m k0) with
      | none => exact ih h0
      | some v0 =>
        by_cases he : v0.isEmpty
        · simp [he, ih h0]
        · simp [he]

theorem extractDirect_all_str (m : PyDict) (y : Bool) (ks : List String) (r : List PyVal)
    (h : extractDirect m y ks = some r) : ∀ v ∈ r, ∃ t, v = PyVal.s t := by
  induction ks generalizing r with
  | nil => simp [extractDirect] at h
  | cons k0 ks ih =>
    rw [extractDirect] at h
    split at h
    · split at h
      · exact ih r h
      · split at h
        · cases h
          intro v hv
          cases hv
        · cases h
          intro v hv
          rcases List.mem_map.1 hv with ⟨x, _, hx⟩
          exact ⟨x.strOf, hx.symm⟩
    · exact ih r h

theorem extractNested_all_str (mk : PyDict) (ks : List String) (r : List PyVal)
    (h : extractNested mk ks = some r) : ∀ v ∈ r, ∃ t, v = PyVal.s t := by
  induction ks generalizing r with
  | nil => simp [extractNested] at h
  | cons k0 ks ih =>
    rw [extractNested] at h
    split at h
    · split at h
      · exact ih r h
      · cases h
        intro v hv
        rcases List.mem_map.1 hv with ⟨x, _, hx⟩
        exact ⟨x.strOf, hx.symm⟩
    · exact ih r h

theorem outcomeId_all_str (y : Bool) (o v : PyVal) (h : outcomeId y o = some v) :
    ∃ t, v = PyVal.s t := by
  cases o with
  | obj t =>
    simp only [outcomeId] at h
    by_cases hy : y && !is_yes_label (token_label t)
    · rw [if_pos hy] at h; cases h
    · rw [if_neg hy] at h
      cases hf : idKeys.find? (fun k => !(dget t k).isNull) with
      | none => rw [hf] at h; cases h
      | some k => rw [hf] at h; cases h; exact ⟨(dget t k).strOf, rfl⟩
  | null => cases h
  | b x => cases h
  | i n => cases h
  | f q => cases h
  | s v2 => cases h
  | arr xs => cases h

/-- C10: for every input dictionary and either `yes_only` flag, the token-ID
extractor returns (totally — it is a Lean `def`, and the only fallible
operation, `json.loads`, is caught inside `_maybe_parse_json_list`) a list
every element of which is a Python string. -/
theorem outcomesIds_all_str (m : PyDict) (y : Bool) :
    ∀ v ∈ outcomesIds m y, ∃ t, v = PyVal.s t := by
  intro v hv
  rw [outcomesIds] at hv
  split at hv
  · split at hv
    · cases hv
    · rcases List.mem_filterMap.1 hv with ⟨o, _, hvo⟩
      exact outcomeId_all_str y o v hvo
  · cases hv

theorem nestedIds_all_str (m : PyDict) : ∀ v ∈ nestedIds m, ∃ t, v = PyVal.s t := by
  intro v hv
  rw [nestedIds] at hv
  split at hv
  · rename_i mk hm
    split at hv
    · rename_i r hn
      exact extractNested_all_str mk _ r hn v hv
    · cases hv
  · cases hv

theorem extract_clob_none_branch (m : PyDict) (y : Bool)
    (h : extractDirect m y directTokenKeys = Option.none) :
    extract_clob_token_ids m y =
      if !(outcomesIds m y).isEmpty then outcomesIds m y else nestedIds m := by
  rw [extract_clob_token_ids, h]

theorem extract_clob_token_ids_all_strings (m : PyDict) (y : Bool) :
    ∀ v ∈ extract_clob_token_ids m y, ∃ t, v = PyVal.s t := by
  intro v hv
  rcases hd : extractDirect m y directTokenKeys with _ | r
  · rw [extract_clob_none_branch m y hd] at hv
    by_cases hne : (outcomesIds m y).isEmpty
    · rw [hne] at hv
      simp only [Bool.not_true, Bool.false_eq_true, if_false] at hv
      exact nestedIds_all_str m v hv
    · rw [if_pos (by simp [hne])] at hv
      exact outcomesIds_all_str m y v hv
  · rw [extract_clob_token_ids, hd] at hv
    exact extractDirect_all_str m y directTokenKeys r hd v hv

/-- Witness for C10 at a concrete market whose extraction is non-empty. -/
theorem extract_clob_token_ids_all_strings_witness :
    ∃ t, PyVal.s "x" = PyVal.s t :=
  extract_clob_token_ids_all_strings [("clobTokenIds", .arr [.s "x"])] false
    (PyVal.s "x")
    (by
      rw [show extract_clob_token_ids [("clobTokenIds", PyVal.arr [.s "x"])] false
            = [PyVal.s "x"] from rfl]
      exact List.mem_singleton.2 rfl)

/-- C5: a market whose token IDs sit (only) in a direct unlabeled list field
yields the empty sequence under `yes_only=true` — the extractor never guesses
which token is the Yes outcome. (This holds as soon as any direct alias field
parses to a non-empty list, since the direct cascade runs first.) -/
theorem extract_yes_only_direct_field_empty (m : PyDict) (k : String) (v : List PyVal)
    (hk : k ∈ directTokenKeys) (hv : maybe_parse_json_list (dget m k) = some v)
    (hne : v ≠ []) :
    extract_clob_token_ids m true = [] := by
  unfold extract_clob_token_ids
  rw [extractDirect_eq_some_yes m directTokenKeys k v hk hv hne]

/-- Witness for C5: a market carrying only a direct `clobTokenIds` list. -/
theorem extract_yes_only_direct_field_empty_witness :
    "clobTokenIds" ∈ directTokenKeys ∧
      maybe_parse_json_list (dget [("clobTokenIds", PyVal.arr [.s "111", .s "222"])]
        "clobTokenIds") = some [.s "111", .s "222"] ∧
      extract_clob_token_ids [("clobTokenIds", PyVal.arr [.s "111", .s "222"])] true = [] :=
  ⟨by simp [directTokenKeys], rfl,
    extract_yes_only_direct_field_empty _ "clobTokenIds" [.s "111", .s "222"]
      (by simp [directTokenKeys]) rfl (by simp)⟩

theorem extractDirect_congrP (m1 m2 : PyDict) (y : Bool) (ks : List String)
    (h : ∀ k ∈ ks, maybe_parse_json_list (dget m1 k) = maybe_parse_json_list (dget m2 k)) :
    extractDirect m1 y ks = extractDirect m2 y ks := by
  induction ks with
  | nil => rfl
  | cons k0 ks ih =>
    have h0 := h k0 (List.mem_cons_self _ _)
    have ht : extractDirect m1 y ks = extractDirect m2 y ks :=
      ih (fun k hk => h k (List.mem_cons_of_mem _ hk))
    rw [extractDirect, extractDirect, h0, ht]

theorem outcomesIds_congr (m1 m2 : PyDict) (y : Bool)
    (h : dget m1 "outcomes" = dget m2 "outcomes") : outcomesIds m1 y = outcomesIds m2 y := by
  simp only [outcomesIds, h]

theorem nestedIds_congr (m1 m2 : PyDict)
    (h : dget m1 "market" = dget m2 "market") : nestedIds m1 = nestedIds m2 := by
  simp only [nestedIds, h]

/-- C9: a market whose direct `clobTokenIds` field holds a string containing a
JSON array behaves identically to the same market holding the equivalent
native list, and (for a non-empty array, outside `yes_only`) the extractor
returns exactly the parsed array's elements converted to strings. -/
theorem extract_string_vs_native (sVal : String) (l : List PyVal) (rest : PyDict) (y : Bool)
    (h1 : pyStartsWith (pyStrip sVal) "[" = true) (h2 : pyEndsWith (pyStrip sVal) "]" = true)
    (h3 : jsonParse (pyStrip sVal) = .ok (.arr l)) :
    extract_clob_token_ids (("clobTokenIds", PyVal.s sVal) :: rest) y =
      extract_clob_token_ids (("clobTokenIds", PyVal.arr l) :: rest) y ∧
    (l ≠ [] →
      extract_clob_token_ids (("clobTokenIds", PyVal.s sVal) :: rest) false =
        l.map (fun x => PyVal.s x.strOf)) := by
  have hA : maybe_parse_json_list (PyVal.s sVal) = some l := by
    simp [maybe_parse_json_list, h1, h2, h3]
  have hB : maybe_parse_json_list (PyVal.arr l) = some l := rfl
  have hd1 : dget (("clobTokenIds", PyVal.s sVal) :: rest) "clobTokenIds" = PyVal.s sVal := by
    simp [dget_cons]
  have hd2 : dget (("clobTokenIds", PyVal.arr l) :: rest) "clobTokenIds" = PyVal.arr l := by
    simp [dget_cons]
  have hother : ∀ k, "clobTokenIds" ≠ k →
      dget (("clobTokenIds", PyVal.s sVal) :: rest) k =
        dget (("clobTokenIds", PyVal.arr l) :: rest) k := by
    intro k hk
    rw [dget_cons, dget_cons, if_neg (by simpa using hk), if_neg (by simpa using hk)]
  have hparse : ∀ k ∈ directTokenKeys,
      maybe_parse_json_list (dget (("clobTokenIds", PyVal.s sVal) :: rest) k) =
        maybe_parse_json_list (dget (("clobTokenIds", PyVal.arr l) :: rest) k) := by
    intro k hk
    by_cases hkc : "clobTokenIds" = k
    · subst hkc
      rw [hd1, hd2, hA, hB]
    · exact congrArg _ (hother k hkc)
  have hdirect := extractDirect_congrP _ _ y directTokenKeys hparse
  have hout : outcomesIds (("clobTokenIds", PyVal.s sVal) :: rest) y =
      outcomesIds (("clobTokenIds", PyVal.arr l) :: rest) y :=
    outcomesIds_congr _ _ y (hother "outcomes" (by decide))
  have hnest : nestedIds (("clobTokenIds", PyVal.s sVal) :: rest) =
      nestedIds (("clobTokenIds", PyVal.arr l) :: rest) :=
    nestedIds_congr _ _ (hother "market" (by decide))
  refine ⟨?_, ?_⟩
  · rw [extract_clob_token_ids, extract_clob_token_ids, hdirect, hout, hnest]
  · intro hl
    have hle : l.isEmpty = false := by
      cases l with
      | nil => exact absurd rfl hl
      | cons a as => rfl
    have hstep : extractDirect (("clobTokenIds", PyVal.s sVal) :: rest) false directTokenKeys =
        some (l.map (fun x => PyVal.s x.strOf)) := by
      rw [show directTokenKeys =
            "clobTokenIds" :: ["clob_token_ids", "outcomeTokenIds", "outcome_token_ids"]
          from rfl]
      rw [extractDirect, hd1, hA]
      simp [hle]
    rw [extract_clob_token_ids, hstep]

/-- Witness for C9 at a concrete market: a JSON-array-as-string `clobTokenIds`
versus the native two-element list. -/
theorem extract_string_vs_native_witness :
    extract_clob_token_ids [("clobTokenIds", PyVal.s "[\"111\", \"222\"]")] false =
        extract_clob_token_ids [("clobTokenIds", PyVal.arr [.s "111", .s "222"])] false ∧
      extract_clob_token_ids [("clobTokenIds", PyVal.s "[\"111\", \"222\"]")] false =
        [PyVal.s "111", PyVal.s "222"] := by
  have h := extract_string_vs_native "[\"111\", \"222\"]" [.s "111", .s "222"] [] false
    rfl rfl rfl
  exact ⟨h.1, h.2 (by simp)⟩

/-- Counterexample to C2: a constant `404` response is *not* a fail-fast. The
`raise_for_status()` exception is caught by the blanket `except`, so the
client performs all 5 attempts (not 1) and only then raises the exhaustion
error carrying the last HTTP error. -/
theorem http_get_404_retries_counterexample :
    (collect_http_get (fun _ => .resp 404 (.ok .null)) "u").calls = 5 ∧
      (collect_http_get (fun _ => .resp 404 (.ok .null)) "u").calls ≠ 1 ∧
      (collect_http_get (fun _ => .resp 404 (.ok .null)) "u").result =
        .error (.getFailed "u" (some (.httpError 404))) :=
  ⟨rfl, by decide, rfl⟩

/-- C2 amended: a response whose status is a non-retryable HTTP error (4xx
other than 429, or any other error status outside the retry tuple) does not
fail immediately: `raise_for_status()`'s exception lands in the blanket
`except`, is recorded as `last_err`, slept on with the linear exception-branch
wait and retried; after the 5-attempt ceiling the client raises the
exhaustion error carrying the URL and the last HTTP error. -/
theorem http_get_error_status_retried (st : Nat) (body : Except String PyVal) (url : String)
    (hmem : retryStatuses.contains st = false) (h4 : 400 ≤ st) (h6 : st < 600) :
    (collect_http_get (fun _ => .resp st body) url).calls = 5 ∧
      (collect_http_get (fun _ => .resp st body) url).sleeps =
        [linearWait 1, linearWait 2, linearWait 3, linearWait 4, linearWait 5] ∧
      (collect_http_get (fun _ => .resp st body) url).result =
        .error (.getFailed url (some (.httpError st))) := by
  have hmem2 : st ∉ retryStatuses := by simpa using hmem
  refine ⟨?_, ?_, ?_⟩ <;>
    simp [collect_http_get, attemptNumbers, List.range', httpGetGo, hmem2, h4, h6]

/-- Witness for the amended C2 at status `404`. -/
theorem http_get_error_status_retried_witness :
    (collect_http_get (fun _ => .resp 404 (.error "nope")) "u").calls = 5 ∧
      (collect_http_get (fun _ => .resp 404 (.error "nope")) "u").sleeps =
        [linearWait 1, linearWait 2, linearWait 3, linearWait 4, linearWait 5] ∧
      (collect_http_get (fun _ => .resp 404 (.error "nope")) "u").result =
        .error (.getFailed "u" (some (.httpError 404))) :=
  http_get_error_status_retried 404 (.error "nope") "u" (by decide) (by decide) (by decide)

/-- Counterexample to C8: the notebook client's status-branch waits are
exponential (`1.5 * 2 ** (attempt-1)`), not `backoff_base * attempt`: under a
constant 429 the slept durations are `1.5, 3, 6, 12, 24`, differing from the
linear prediction `1.5, 3, 4.5, 6, 7.5` from the third attempt on. -/
theorem tag_http_get_backoff_counterexample :
    (tag_http_get (fun _ => .resp 429 (.ok .null)) "u").sleeps =
        [mkRat 3 2, mkRat 3 1, mkRat 6 1, mkRat 12 1, mkRat 24 1] ∧
      (tag_http_get (fun _ => .resp 429 (.ok .null)) "u").sleeps ≠
        [mkRat 3 2, mkRat 3 1, mkRat 9 2, mkRat 6 1, mkRat 15 2] := by
  constructor
  · rfl
  · intro h
    have h2 := congrArg (fun l => l.get? 2) h
    simp at h2
    cases h2

/-- C8 amended: both clients retry exactly the statuses
`{429,500,502,503,504}` and any caught exception up to the 5-attempt ceiling
and raise the exhaustion error carrying the URL and the last underlying error
(`None` after pure status retries, which never set `last_err`); the
collect_polymarket client sleeps `1.5 * attempt` in both branches, while the
notebook clients sleep `1.5 * 2 ** (attempt-1)` on retryable statuses and
`1.5 * attempt` on exceptions. -/
theorem http_get_retry_backoff (st : Nat) (body : Except String PyVal) (msg url : String)
    (hmem : retryStatuses.contains st = true) :
    (collect_http_get (fun _ => .resp st body) url).sleeps =
        [linearWait 1, linearWait 2, linearWait 3, linearWait 4, linearWait 5] ∧
      (collect_http_get (fun _ => .resp st body) url).calls = 5 ∧
      (collect_http_get (fun _ => .resp st body) url).result =
        .error (.getFailed url Option.none) ∧
      (tag_http_get (fun _ => .resp st body) url).sleeps =
        [expWait 1, expWait 2, expWait 3, expWait 4, expWait 5] ∧
      (tag_http_get (fun _ => .resp st body) url).result =
        .error (.getFailed url Option.none) ∧
      (collect_http_get (fun _ => .exc msg) url).sleeps =
        [linearWait 1, linearWait 2, linearWait 3, linearWait 4, linearWait 5] ∧
      (tag_http_get (fun _ => .exc msg) url).sleeps =
        [linearWait 1, linearWait 2, linearWait 3, linearWait 4, linearWait 5] ∧
      (tag_http_get (fun _ => .exc msg) url).result =
        .error (.getFailed url (some (.transportExc msg))) := by
  have hmem2 : st ∈ retryStatuses := by simpa using hmem
  refine ⟨?_, ?_, ?_, ?_, ?_, ?_, ?_, ?_⟩ <;>
    simp [collect_http_get, tag_http_get, attemptNumbers, List.range', httpGetGo, hmem2]

/-- Witness for the amended C8 at status `429`. -/
theorem http_get_retry_backoff_witness :
    (collect_http_get (fun _ => .resp 429 (.ok .null)) "u").sleeps =
        [linearWait 1, linearWait 2, linearWait 3, linearWait 4, linearWait 5] ∧
      (collect_http_get (fun _ => .resp 429 (.ok .null)) "u").calls = 5 ∧
      (collect_http_get (fun _ => .resp 429 (.ok .null)) "u").result =
        .error (.getFailed "u" Option.none) ∧
      (tag_http_get (fun _ => .resp 429 (.ok .null)) "u").sleeps =
        [expWait 1, expWait 2, expWait 3, expWait 4, expWait 5] ∧
      (tag_http_get (fun _ => .resp 429 (.ok .null)) "u").result =
        .error (.getFailed "u" Option.none) ∧
      (collect_http_get (fun _ => .exc "boom") "u").sleeps =
        [linearWait 1, linearWait 2, linearWait 3, linearWait 4, linearWait 5] ∧
      (tag_http_get (fun _ => .exc "boom") "u").sleeps =
        [linearWait 1, linearWait 2, linearWait 3, linearWait 4, linearWait 5] ∧
      (tag_http_get (fun _ => .exc "boom") "u").result =
        .error (.getFailed "u" (some (.transportExc "boom"))) :=
  http_get_retry_backoff 429 (.ok .null) "boom" "u" (by decide)

/-- Counterexample to C3: unexpected JSON shapes *do* raise. A dict payload
where `fetch_markets` expects a list raises `RuntimeError`, and a list
response where the notebook price fetcher expects `{"history": ...}` raises
`AttributeError` (`list.get` does not exist). -/
theorem data_shape_raises_counterexample :
    fetch_markets (fun _ => .obj [("a", .i 1)]) 5 1 =
        some (.error (.runtimeError "Unexpected response type: dict")) ∧
      fetch_price_history_of (.arr [.i 1]) = .error (.attributeError "list") :=
  ⟨rfl, rfl⟩

/-- C3 amended: graceful shape degradation holds only in
`collect_polymarket.py`'s `fetch_prices_history` (dict-with-history passes
through, a bare list is wrapped as the history, anything else degrades to an
empty history); the notebook scripts instead raise on unexpected shapes —
`fetch_price_history` raises `AttributeError` on any non-dict response and
`fetch_markets` raises `RuntimeError` on any non-list page payload. -/
theorem data_shape_handling :
    (∀ fs : PyDict, hasKey fs "history" = true →
        fetch_prices_history_norm (.obj fs) = .obj fs) ∧
      (∀ xs : List PyVal, fetch_prices_history_norm (.arr xs) = .obj [("history", .arr xs)]) ∧
      (∀ v : PyVal, (∀ xs, v ≠ .arr xs) → (∀ fs, v ≠ .obj fs) →
        fetch_prices_history_norm v = .obj [("history", .arr [])]) ∧
      (∀ v : PyVal, (∀ fs, v ≠ .obj fs) →
        fetch_price_history_of v = .error (.attributeError (pyTypeName v))) ∧
      (∀ (pages : Nat → PyVal) (maxMarkets fuel : Nat), 0 < maxMarkets → 0 < fuel →
        (∀ xs, pages 0 ≠ .arr xs) →
        fetch_markets pages maxMarkets fuel =
          some (.error (.runtimeError ("Unexpected response type: " ++ pyTypeName (pages 0))))) := by
  refine ⟨?_, ?_, ?_, ?_, ?_⟩
  · intro fs h
    simp [fetch_prices_history_norm, h]
  · intro xs
    rfl
  · intro v ha ho
    cases v with
    | arr xs => exact absurd rfl (ha xs)
    | obj fs => exact absurd rfl (ho fs)
    | null => rfl
    | b x => rfl
    | i n => rfl
    | f q => rfl
    | s t => rfl
  · intro v ho
    cases v with
    | obj fs => exact absurd rfl (ho fs)
    | null => rfl
    | b x => rfl
    | i n => rfl
    | f q => rfl
    | s t => rfl
    | arr xs => rfl
  · intro pages maxMarkets fuel hm hf ha
    cases fuel with
    | zero => cases hf
    | succ fuel =>
      rw [fetch_markets, fetchMarketsGo, if_pos (by simpa using hm)]
      cases hp : pages 0 with
      | arr xs => exact absurd hp (ha xs)
      | null => rfl
      | b x => rfl
      | i n => rfl
      | f q => rfl
      | s t => rfl
      | obj fs => rfl

/-- Witness for the amended C3, instantiating every conjunct concretely. -/
theorem data_shape_handling_witness :
    fetch_prices_history_norm (.obj [("history", .arr [.i 1])]) =
        .obj [("history", .arr [.i 1])] ∧
      fetch_prices_history_norm (.arr [.i 1]) = .obj [("history", .arr [.i 1])] ∧
      fetch_prices_history_norm (.s "odd") = .obj [("history", .arr [])] ∧
      fetch_price_history_of (.i 7) = .error (.attributeError "int") ∧
      fetch_markets (fun _ => .obj []) 5 3 =
        some (.error (.runtimeError "Unexpected response type: dict")) := by
  obtain ⟨h1, h2, h3, h4, h5⟩ := data_shape_handling
  exact ⟨h1 _ rfl, h2 _, h3 _ (fun xs h => by cases h) (fun fs h => by cases h),
    h4 _ (fun fs h => by cases h),
    h5 _ 5 3 (by decide) (by decide) (fun xs h => by cases h)⟩

/-! ### Lemmas about the resumable run -/
theorem exceptToOption_eq {α β : Type} (e : Except α β) (v : β) :
    e.toOption = some v ↔ e = .ok v := by
  cases e <;> simp [Except.toOption]

theorem rowTokenId_priceRow (mid tid interval : String) (fidelity : Int) (n : Nat)
    (fetchedAt : String) (hist : PyVal) :
    rowTokenId (priceRow mid tid interval fidelity n fetchedAt hist) = .ok (.s tid) := rfl

theorem load_eq_outTokens (file0 already : List PyVal)
    (h : load_already_fetched file0 = .ok already) : already = outTokens file0 := by
  induction file0 generalizing already with
  | nil =>
    rw [load_already_fetched] at h
    cases h
    rfl
  | cons r rs ih =>
    cases hv : rowTokenId r with
    | error e =>
      simp only [load_already_fetched, hv] at h
      cases h
    | ok v =>
      cases hrest : load_already_fetched rs with
      | error e =>
        simp only [load_already_fetched, hv, hrest] at h
        cases h
      | ok rest =>
        simp only [load_already_fetched, hv, hrest] at h
        cases h
        have hv2 : (rowTokenId r).toOption = some v := by rw [hv]; rfl
        have hr := ih rest hrest
        subst hr
        simp only [outTokens, List.filterMap_cons, hv2]

theorem mem_already_iff (file0 already : List PyVal)
    (h : load_already_fetched file0 = .ok already) (v : PyVal) :
    v ∈ already ↔ ∃ r ∈ file0, rowTokenId r = .ok v := by
  rw [load_eq_outTokens file0 already h]
  simp only [outTokens, List.mem_filterMap]
  constructor
  · rintro ⟨r, hr, hv⟩
    exact ⟨r, hr, (exceptToOption_eq _ _).1 hv⟩
  · rintro ⟨r, hr, hv⟩
    exact ⟨r, hr, (exceptToOption_eq _ _).2 hv⟩

theorem beq_s_self (tid : String) : PyVal.beq (.s tid) (.s tid) = true := by
  simp [PyVal.beq]

theorem not_mem_of_alreadyHas_false (already : List PyVal) (tid : String)
    (h : alreadyHas already tid = false) : PyVal.s tid ∉ already := by
  intro hmem
  have ht : already.any (fun a => PyVal.beq (.s tid) a) = true :=
    List.any_eq_true.2 ⟨_, hmem, beq_s_self tid⟩
  rw [alreadyHas] at h
  rw [h] at ht
  cases ht

theorem buildWork_not_already (already : List PyVal) (ms : List PyVal)
    (ws : List (String × String)) (h : buildWork already ms = .ok ws) :
    ∀ p ∈ ws, alreadyHas already p.2 = false := by
  induction ms generalizing ws with
  | nil =>
    rw [buildWork] at h
    cases h
    intro p hp
    cases hp
  | cons m ms ih =>
    cases m with
    | obj md =>
      cases hrest : buildWork already ms with
      | error e =>
        simp only [buildWork, hrest] at h
        cases h
      | ok rest =>
        simp only [buildWork, hrest] at h
        cases h
        intro p hp
        rcases List.mem_append.1 hp with hl | hr
        · rcases List.mem_filterMap.1 hl with ⟨tid, _, htid⟩
          by_cases hc : alreadyHas already tid
          · rw [if_pos hc] at htid
            cases htid
          · rw [if_neg hc] at htid
            cases htid
            simpa using hc
        · exact ih rest hrest p hr
    | null => simp only [buildWork] at h; cases h
    | b x => simp only [buildWork] at h; cases h
    | i n => simp only [buildWork] at h; cases h
    | f q => simp only [buildWork] at h; cases h
    | s u => simp only [buildWork] at h; cases h
    | arr xs => simp only [buildWork] at h; cases h

theorem processWork_mem (P : String → PyVal) (i : String) (f mc : Int) (t : String)
    (ws : List (String × String)) (rows : List PyVal)
    (h : processWork P i f mc t ws = .ok rows) :
    ∀ r ∈ rows, ∃ mid tid hist n, (mid, tid) ∈ ws ∧
      fetch_price_history_of (P tid) = .ok hist ∧ lenOf hist = .ok n ∧
      mc ≤ (n : Int) ∧ r = priceRow mid tid i f n t hist := by
  induction ws generalizing rows with
  | nil =>
    rw [processWork] at h
    cases h
    intro r hr
    cases hr
  | cons w rest ih =>
    obtain ⟨mid, tid⟩ := w
    cases hfetch : fetch_price_history_of (P tid) with
    | error e => simp only [processWork, hfetch] at h; cases h
    | ok hist =>
      cases hlen : lenOf hist with
      | error e => simp only [processWork, hfetch, hlen] at h; cases h
      | ok n =>
        cases htail : processWork P i f mc t rest with
        | error e => simp only [processWork, hfetch, hlen, htail] at h; cases h
        | ok tail =>
          simp only [processWork, hfetch, hlen, htail] at h
          by_cases hdrop : (n : Int) < mc
          · rw [if_pos hdrop] at h
            cases h
            intro r hr
            rcases ih _ htail r hr with ⟨mid2, tid2, hist2, n2, hm, h1, h2, h3, h4⟩
            exact ⟨mid2, tid2, hist2, n2, List.mem_cons_of_mem _ hm, h1, h2, h3, h4⟩
          · rw [if_neg hdrop] at h
            cases h
            intro r hr
            rcases List.mem_cons.1 hr with rfl | hr2
            · exact ⟨mid, tid, hist, n, List.mem_cons_self _ _, hfetch, hlen,
                Int.not_lt.1 hdrop, rfl⟩
            · rcases ih _ htail r hr2 with ⟨mid2, tid2, hist2, n2, hm, h1, h2, h3, h4⟩
              exact ⟨mid2, tid2, hist2, n2, List.mem_cons_of_mem _ hm, h1, h2, h3, h4⟩

theorem processWork_complete (P : String → PyVal) (i : String) (f mc : Int) (t : String)
    (ws : List (String × String)) (rows : List PyVal)
    (h : processWork P i f mc t ws = .ok rows) :
    ∀ mid tid hist n, (mid, tid) ∈ ws → fetch_price_history_of (P tid) = .ok hist →
      lenOf hist = .ok n → mc ≤ (n : Int) →
      priceRow mid tid i f n t hist ∈ rows := by
  induction ws generalizing rows with
  | nil =>
    intro mid tid hist n hm
    cases hm
  | cons w rest ih =>
    obtain ⟨mid0, tid0⟩ := w
    cases hfetch0 : fetch_price_history_of (P tid0) with
    | error e => simp only [processWork, hfetch0] at h; cases h
    | ok hist0 =>
      cases hlen0 : lenOf hist0 with
      | error e => simp only [processWork, hfetch0, hlen0] at h; cases h
      | ok n0 =>
        cases htail : processWork P i f mc t rest with
        | error e => simp only [processWork, hfetch0, hlen0, htail] at h; cases h
        | ok tail =>
          simp only [processWork, hfetch0, hlen0, htail] at h
          intro mid tid hist n hm hfetch hlen hge
          rcases List.mem_cons.1 hm with heq | hm2
          · injection heq with e1 e2
            subst e1
            subst e2
            rw [hfetch0] at hfetch
            injection hfetch with e3
            subst e3
            rw [hlen0] at hlen
            injection hlen with e4
            subst e4
            rw [if_neg (Int.not_lt.2 hge)] at h
            cases h
            exact List.mem_cons_self _ _
          · have hmem := ih tail htail mid tid hist n hm2 hfetch hlen hge
            by_cases hdrop : (n0 : Int) < mc
            · rw [if_pos hdrop] at h
              cases h
              exact hmem
            · rw [if_neg hdrop] at h
              cases h
              exact List.mem_cons_of_mem _ hmem

theorem processWork_tokens_sublist (P : String → PyVal) (i : String) (f mc : Int)
    (t : String) (ws : List (String × String)) (rows : List PyVal)
    (h : processWork P i f mc t ws = .ok rows) :
    (outTokens rows).Sublist (ws.map (fun p => PyVal.s p.2)) := by
  induction ws generalizing rows with
  | nil =>
    rw [processWork] at h
    cases h
    exact List.Sublist.refl _
  | cons w rest ih =>
    obtain ⟨mid, tid⟩ := w
    cases hfetch : fetch_price_history_of (P tid) with
    | error e => simp only [processWork, hfetch] at h; cases h
    | ok hist =>
      cases hlen : lenOf hist with
      | error e => simp only [processWork, hfetch, hlen] at h; cases h
      | ok n =>
        cases htail : processWork P i f mc t rest with
        | error e => simp only [processWork, hfetch, hlen, htail] at h; cases h
        | ok tail =>
          simp only [processWork, hfetch, hlen, htail] at h
          by_cases hdrop : (n : Int) < mc
          · rw [if_pos hdrop] at h
            cases h
            exact (ih _ htail).trans (List.sublist_cons_self _ _)
          · rw [if_neg hdrop] at h
            cases h
            have hrow : (rowTokenId (priceRow mid tid i f n t hist)).toOption =
                some (.s tid) := by
              rw [rowTokenId_priceRow]
              rfl
            simp only [outTokens, List.filterMap_cons, hrow, List.map_cons]
            exact (ih _ htail).cons₂ _

/-- C4 amended: on a completed run — provided no token id repeats across the
work list, which the source does not de-duplicate within a run (see the
counterexample) — `load_already_fetched` returns exactly the `token_id` keys
persisted in the existing file, only tokens outside that set are fetched and
appended, the final file is the old lines plus the appended rows, and no two
of its lines share a `token_id`. -/
theorem resumable_sink_run (P : String → PyVal) (i : String) (f mc : Int) (t : String)
    (markets file0 already : List PyVal) (work : List (String × String)) (out : List PyVal)
    (ha : load_already_fetched file0 = .ok already)
    (hw : buildWork already markets = .ok work)
    (hrun : run_fetch_prices P i f mc t markets file0 = .ok out)
    (hndf : (outTokens file0).Nodup)
    (hndw : (work.map (fun p => p.2)).Nodup) :
    (∀ v, v ∈ already ↔ ∃ r ∈ file0, rowTokenId r = .ok v) ∧
      (∀ p ∈ work, alreadyHas already p.2 = false) ∧
      (∃ rows, processWork P i f mc t work = .ok rows ∧ out = file0 ++ rows ∧
        ∀ v ∈ outTokens rows, (∃ p ∈ work, v = PyVal.s p.2) ∧ v ∉ already) ∧
      (outTokens out).Nodup := by
  have hbna := buildWork_not_already already markets work hw
  simp only [run_fetch_prices, ha, hw] at hrun
  cases hrows : processWork P i f mc t work with
  | error e =>
    simp only [hrows] at hrun
    cases hrun
  | ok rows =>
    simp only [hrows] at hrun
    injection hrun with hout
    subst hout
    have hsub := processWork_tokens_sublist P i f mc t work rows hrows
    have htokmem : ∀ v ∈ outTokens rows, ∃ p ∈ work, v = PyVal.s p.2 := by
      intro v hv
      rcases List.mem_map.1 (hsub.subset hv) with ⟨p, hp, he⟩
      exact ⟨p, hp, he.symm⟩
    refine ⟨mem_already_iff file0 already ha, hbna, ⟨rows, rfl, rfl, ?_⟩, ?_⟩
    · intro v hv
      refine ⟨htokmem v hv, ?_⟩
      rcases htokmem v hv with ⟨p, hp, rfl⟩
      exact not_mem_of_alreadyHas_false already p.2 (hbna p hp)
    · rw [show outTokens (file0 ++ rows) = outTokens file0 ++ outTokens rows from by
        simp [outTokens, List.filterMap_append]]
      refine List.nodup_append.2 ⟨hndf, ?_, ?_⟩
      · have hmapnd : (work.map (fun p => PyVal.s p.2)).Nodup := by
          rw [show (fun p : String × String => PyVal.s p.2) =
                (PyVal.s ∘ fun p : String × String => p.2) from rfl,
            ← List.map_map]
          exact hndw.map (fun a b hab => by injection hab)
        exact hmapnd.sublist hsub
      · intro a haf har
        rcases htokmem a har with ⟨p, hp, rfl⟩
        have hnm := not_mem_of_alreadyHas_false already p.2 (hbna p hp)
        rw [load_eq_outTokens file0 already ha] at hnm
        exact hnm haf

/-- Witness for the amended C4: file holds `A, B`; the run requests
`A, B, C`; only `C` is appended, leaving three uniquely-keyed lines. -/
theorem resumable_sink_run_witness :
    (outTokens (fileAB ++ [priceRow "m" "C" "max" 720 15 "t1" fifteenPoints])).Nodup := by
  have h := resumable_sink_run (fun _ => .obj [("history", fifteenPoints)]) "max" 720 10 "t1"
    [marketABC] fileAB [.s "A", .s "B"] [("m", "C")]
    (fileAB ++ [priceRow "m" "C" "max" 720 15 "t1" fifteenPoints])
    rfl rfl rfl
    (by
      rw [show outTokens fileAB = [PyVal.s "A", PyVal.s "B"] from rfl]
      refine List.nodup_cons.2 ⟨?_, List.nodup_singleton _⟩
      intro hmem
      have hAB : PyVal.s "A" = PyVal.s "B" := List.mem_singleton.1 hmem
      injection hAB with hAB2
      exact absurd hAB2 (by decide))
    (by simp)
  exact h.2.2.2

/-- Counterexample to C4 as universally stated: the run never de-duplicates
*within* itself — two markets sharing token `X` over an empty initial file
produce two output lines with the same `token_id`. -/
theorem resumable_sink_dup_counterexample :
    run_fetch_prices (fun _ => .obj [("history", onePoint)]) "max" 720 0 "t"
        [.obj [("id", .s "m1"), ("clobTokenIds", .arr [.s "X"])],
         .obj [("id", .s "m2"), ("clobTokenIds", .arr [.s "X"])]] [] =
      .ok [priceRow "m1" "X" "max" 720 1 "t" onePoint,
           priceRow "m2" "X" "max" 720 1 "t" onePoint] ∧
    outTokens [priceRow "m1" "X" "max" 720 1 "t" onePoint,
               priceRow "m2" "X" "max" 720 1 "t" onePoint] = [.s "X", .s "X"] ∧
    ¬ (outTokens [priceRow "m1" "X" "max" 720 1 "t" onePoint,
                  priceRow "m2" "X" "max" 720 1 "t" onePoint]).Nodup := by
  refine ⟨rfl, rfl, ?_⟩
  rw [show outTokens [priceRow "m1" "X" "max" 720 1 "t" onePoint,
        priceRow "m2" "X" "max" 720 1 "t" onePoint] = [PyVal.s "X", PyVal.s "X"] from rfl]
  intro h
  exact (List.nodup_cons.1 h).1 (List.mem_singleton.2 rfl)

/-- C6: on a completed run, every appended row comes from a work token whose
fetched point count `n` satisfies `min_candles ≤ n` and carries
`n_candles = n`; a token whose point count is below `min_candles` contributes
no row at all; and every sufficiently-long work token does get its row. -/
theorem min_candles_rule (P : String → PyVal) (i : String) (f mc : Int) (t : String)
    (markets file0 already : List PyVal) (work : List (String × String)) (out : List PyVal)
    (ha : load_already_fetched file0 = .ok already)
    (hw : buildWork already markets = .ok work)
    (hrun : run_fetch_prices P i f mc t markets file0 = .ok out) :
    ∃ rows, processWork P i f mc t work = .ok rows ∧ out = file0 ++ rows ∧
      (∀ r ∈ rows, ∃ mid tid hist n, (mid, tid) ∈ work ∧
        fetch_price_history_of (P tid) = .ok hist ∧ lenOf hist = .ok n ∧
        mc ≤ (n : Int) ∧ r = priceRow mid tid i f n t hist ∧
        objGet r "n_candles" = some (.i n)) ∧
      (∀ mid tid hist n, (mid, tid) ∈ work → fetch_price_history_of (P tid) = .ok hist →
        lenOf hist = .ok n → (n : Int) < mc →
        ∀ r ∈ rows, rowTokenId r ≠ .ok (.s tid)) ∧
      (∀ mid tid hist n, (mid, tid) ∈ work → fetch_price_history_of (P tid) = .ok hist →
        lenOf hist = .ok n → mc ≤ (n : Int) →
        priceRow mid tid i f n t hist ∈ rows) := by
  simp only [run_fetch_prices, ha, hw] at hrun
  cases hrows : processWork P i f mc t work with
  | error e =>
    simp only [hrows] at hrun
    cases hrun
  | ok rows =>
    simp only [hrows] at hrun
    injection hrun with hout
    subst hout
    refine ⟨rows, rfl, rfl, ?_, ?_, ?_⟩
    · intro r hr
      rcases processWork_mem P i f mc t work rows hrows r hr with
        ⟨mid, tid, hist, n, hm, h1, h2, h3, h4⟩
      subst h4
      exact ⟨mid, tid, hist, n, hm, h1, h2, h3, rfl, rfl⟩
    · intro mid tid hist n hm hf hl hlt r hr hcontra
      rcases processWork_mem P i f mc t work rows hrows r hr with
        ⟨mid2, tid2, hist2, n2, hm2, hf2, hl2, hge2, hreq⟩
      subst hreq
      rw [rowTokenId_priceRow] at hcontra
      injection hcontra with he
      injection he with he2
      subst he2
      rw [hf] at hf2
      injection hf2 with he3
      subst he3
      rw [hl] at hl2
      injection hl2 with he4
      subst he4
      exact absurd hge2 (Int.not_le.2 hlt)
    · exact processWork_complete P i f mc t work rows hrows

/-- Witness for C6: with `min_candles = 10`, token `A` (1 point) is dropped
and token `B` (15 points) is written with `n_candles = 15`. -/
theorem min_candles_rule_witness :
    ∃ rows, processWork c6P "max" 720 10 "t" [("m", "A"), ("m", "B")] = .ok rows ∧
      [priceRow "m" "B" "max" 720 15 "t" fifteenPoints] = [] ++ rows ∧
      (∀ r ∈ rows, ∃ mid tid hist n, (mid, tid) ∈ [("m", "A"), ("m", "B")] ∧
        fetch_price_history_of (c6P tid) = .ok hist ∧ lenOf hist = .ok n ∧
        (10 : Int) ≤ (n : Int) ∧ r = priceRow mid tid "max" 720 n "t" hist ∧
        objGet r "n_candles" = some (.i n)) ∧
      (∀ mid tid hist n, (mid, tid) ∈ [("m", "A"), ("m", "B")] →
        fetch_price_history_of (c6P tid) = .ok hist →
        lenOf hist = .ok n → (n : Int) < 10 →
        ∀ r ∈ rows, rowTokenId r ≠ .ok (.s tid)) ∧
      (∀ mid tid hist n, (mid, tid) ∈ [("m", "A"), ("m", "B")] →
        fetch_price_history_of (c6P tid) = .ok hist →
        lenOf hist = .ok n → (10 : Int) ≤ (n : Int) →
        priceRow mid tid "max" 720 n "t" hist ∈ rows) :=
  min_candles_rule c6P "max" 720 10 "t"
    [.obj [("id", .s "m"), ("clobTokenIds", .arr [.s "A", .s "B"])]] [] []
    [("m", "A"), ("m", "B")] [priceRow "m" "B" "max" 720 15 "t" fifteenPoints]
    rfl rfl rfl

theorem sortInsert_perm (x : PyVal) (l : List PyVal) : (sortInsert x l).Perm (x :: l) := by
  induction l with
  | nil => exact List.Perm.refl _
  | cons y ys ih =>
    rw [sortInsert]
    by_cases h : Rat.blt (keyOf x) (keyOf y)
    · rw [if_pos h]
      exact (ih.cons y).trans (List.Perm.swap x y ys)
    · rw [if_neg h]

theorem sortByVolDesc_perm (l : List PyVal) : (sortByVolDesc l).Perm l := by
  induction l with
  | nil => exact List.Perm.refl _
  | cons x xs ih =>
    rw [show sortByVolDesc (x :: xs) = sortInsert x (sortByVolDesc xs) from rfl]
    exact (sortInsert_perm x _).trans (ih.cons x)

theorem sortInsert_pairwise (x : PyVal) (l : List PyVal)
    (h : l.Pairwise (fun a b => keyOf b ≤ keyOf a)) :
    (sortInsert x l).Pairwise (fun a b => keyOf b ≤ keyOf a) := by
  induction l with
  | nil => simp [sortInsert]
  | cons y ys ih =>
    rw [sortInsert]
    rcases List.pairwise_cons.1 h with ⟨hy, hys⟩
    by_cases hb : Rat.blt (keyOf x) (keyOf y)
    · rw [if_pos hb]
      refine List.pairwise_cons.2 ⟨?_, ih hys⟩
      intro z hz
      rcases List.mem_cons.1 ((sortInsert_perm x ys).mem_iff.1 hz) with rfl | hz3
      · exact le_of_lt hb
      · exact hy z hz3
    · rw [if_neg hb]
      have hxy : keyOf y ≤ keyOf x := by
        refine le_of_not_lt ?_
        rw [show (keyOf x < keyOf y) = (Rat.blt (keyOf x) (keyOf y) = true) from rfl]
        simp [hb]
      refine List.pairwise_cons.2 ⟨?_, h⟩
      intro z hz
      rcases List.mem_cons.1 hz with rfl | hz2
      · exact hxy
      · exact le_trans (hy z hz2) hxy

theorem sortByVolDesc_pairwise (l : List PyVal) :
    (sortByVolDesc l).Pairwise (fun a b => keyOf b ≤ keyOf a) := by
  induction l with
  | nil => simp [sortByVolDesc]
  | cons x xs ih =>
    rw [show sortByVolDesc (x :: xs) = sortInsert x (sortByVolDesc xs) from rfl]
    exact sortInsert_pairwise x _ ih

theorem sortInsert_filter (x : PyVal) (l : List PyVal) (k : ℚ) :
    (sortInsert x l).filter (fun z => keyOf z == k) =
      if keyOf x == k then x :: l.filter (fun z => keyOf z == k)
      else l.filter (fun z => keyOf z == k) := by
  induction l with
  | nil =>
    by_cases hx : keyOf x == k <;> simp [sortInsert, List.filter, hx]
  | cons y ys ih =>
    rw [sortInsert]
    by_cases hb : Rat.blt (keyOf x) (keyOf y)
    · rw [if_pos hb]
      by_cases hx : keyOf x == k
      · have hk : keyOf x = k := eq_of_beq hx
        have hyk : (keyOf y == k) = false := by
          refine beq_eq_false_iff_ne.2 ?_
          intro he
          have hlt : keyOf x < keyOf y := hb
          rw [he, hk] at hlt
          exact lt_irrefl k hlt
        simp [List.filter_cons, hyk, ih, hx]
      · simp only [List.filter_cons, ih, hx, if_neg]
        simp
    · rw [if_neg hb]
      by_cases hx : keyOf x == k <;> simp [List.filter_cons, hx]

theorem sortByVolDesc_filter (l : List PyVal) (k : ℚ) :
    (sortByVolDesc l).filter (fun z => keyOf z == k) = l.filter (fun z => keyOf z == k) := by
  induction l with
  | nil => rfl
  | cons x xs ih =>
    rw [show sortByVolDesc (x :: xs) = sortInsert x (sortByVolDesc xs) from rfl,
      sortInsert_filter]
    by_cases hx : keyOf x == k <;> simp [List.filter_cons, hx, ih]

/-- Counterexample to C7: the filter step is a function of the wall clock, not
of the input alone. The same single-market input run with the clock at
2024-01-05 produces an empty `markets_filtered.jsonl` (`too_new`: 4.0 active
days < 7), and run at 2024-01-20 keeps the market — the two runs' outputs are
not byte-identical. -/
theorem filter_not_time_invariant_counterexample :
    run_filter (mkRat 1704412800 1) (mkRat 0 1) (mkRat 7 1) [c7Market] = .ok [] ∧
      run_filter (mkRat 1705708800 1) (mkRat 0 1) (mkRat 7 1) [c7Market] =
        .ok [c7Market] ∧
      run_filter (mkRat 1704412800 1) (mkRat 0 1) (mkRat 7 1) [c7Market] ≠
        run_filter (mkRat 1705708800 1) (mkRat 0 1) (mkRat 7 1) [c7Market] := by
  refine ⟨rfl, rfl, ?_⟩
  intro h
  rw [show run_filter (mkRat 1704412800 1) (mkRat 0 1) (mkRat 7 1) [c7Market] = .ok []
      from rfl,
    show run_filter (mkRat 1705708800 1) (mkRat 0 1) (mkRat 7 1) [c7Market] =
        .ok [c7Market] from rfl] at h
  injection h with h2
  cases h2

/-- C7 amended: for a fixed clock reading the filter step is a pure function
of its input (two runs with the same `now` trivially coincide), and its output
is exactly the stable volume-descending sort of the kept markets: sorted so
that volumes never increase, a permutation of the kept list, and with every
equal-volume class in original input order; but because `_get_active_days`
reads the wall clock, two runs at different times need not produce identical
output (see the counterexample). -/
theorem filter_step_sorted_stable (now mv mad : ℚ) (markets out : List PyVal)
    (h : run_filter now mv mad markets = .ok out) :
    ∃ kept, filterKept now mv mad markets = .ok kept ∧ out = sortByVolDesc kept ∧
      out.Pairwise (fun a b => keyOf b ≤ keyOf a) ∧ out.Perm kept ∧
      (∀ k : ℚ, out.filter (fun z => keyOf z == k) = kept.filter (fun z => keyOf z == k)) := by
  rw [run_filter] at h
  cases hk : filterKept now mv mad markets with
  | error e =>
    simp only [hk] at h
    cases h
  | ok kept =>
    simp only [hk] at h
    injection h with h2
    subst h2
    exact ⟨kept, rfl, rfl, sortByVolDesc_pairwise kept, sortByVolDesc_perm kept,
      fun k => sortByVolDesc_filter kept k⟩

/-- Witness for the amended C7 at the concrete kept-market run. -/
theorem filter_step_sorted_stable_witness :
    ∃ kept, filterKept (mkRat 1705708800 1) (mkRat 0 1) (mkRat 7 1) [c7Market] = .ok kept ∧
      [c7Market] = sortByVolDesc kept ∧
      List.Pairwise (fun a b => keyOf b ≤ keyOf a) [c7Market] ∧
      List.Perm [c7Market] kept ∧
      (∀ k : ℚ, List.filter (fun z => keyOf z == k) [c7Market] =
        kept.filter (fun z => keyOf z == k)) :=
  filter_step_sorted_stable (mkRat 1705708800 1) (mkRat 0 1) (mkRat 7 1)
    [c7Market] [c7Market] rfl

/-- C1 (spec-modelled): for a record with no extractable token IDs, no market
identifier (hence no usable market-detail payload), and an available
condition identifier, the resolver queries exactly the three condition-ID
parameter-name variants in order, stops at the first whose collection is
non-empty, and returns that collection de-duplicated order-preservingly. -/
theorem condition_fallback_variant_order (detailApi : String → Except PyErr PyVal)
    (condApi : String → String → List PyVal) (row : PyDict) (yes_only : Bool)
    (cid : String)
    (hextract : extract_clob_token_ids row yes_only = [])
    (hmid : (parse_market_row row).1 = Option.none)
    (hcid : (parse_market_row row).2 = some cid) :
    (conditionCollected condApi cid yes_only "condition_id" ≠ [] →
      (resolveSpec detailApi condApi row yes_only).2 = ["condition_id"] ∧
      (resolveSpec detailApi condApi row yes_only).1 =
        dedupPreserve (conditionCollected condApi cid yes_only "condition_id")) ∧
    (conditionCollected condApi cid yes_only "condition_id" = [] →
      conditionCollected condApi cid yes_only "conditionId" ≠ [] →
      (resolveSpec detailApi condApi row yes_only).2 = ["condition_id", "conditionId"] ∧
      (resolveSpec detailApi condApi row yes_only).1 =
        dedupPreserve (conditionCollected condApi cid yes_only "conditionId")) ∧
    (conditionCollected condApi cid yes_only "condition_id" = [] →
      conditionCollected condApi cid yes_only "conditionId" = [] →
      conditionCollected condApi cid yes_only "market" ≠ [] →
      (resolveSpec detailApi condApi row yes_only).2 = conditionParamVariants ∧
      (resolveSpec detailApi condApi row yes_only).1 =
        dedupPreserve (conditionCollected condApi cid yes_only "market")) ∧
    (conditionCollected condApi cid yes_only "condition_id" = [] →
      conditionCollected condApi cid yes_only "conditionId" = [] →
      conditionCollected condApi cid yes_only "market" = [] →
      (resolveSpec detailApi condApi row yes_only).2 = conditionParamVariants ∧
      (resolveSpec detailApi condApi row yes_only).1 = []) := by
  have hres : resolveSpec detailApi condApi row yes_only =
      ((query_by_condition condApi cid yes_only).2,
        (query_by_condition condApi cid yes_only).1) := by
    rw [resolveSpec]
    simp only [hextract, hmid, hcid, List.isEmpty_nil, Bool.not_true, Bool.false_eq_true,
      if_false]
  rw [hres]
  rw [query_by_condition, conditionParamVariants]
  refine ⟨?_, ?_, ?_, ?_⟩
  · intro h1
    have he1 : (conditionCollected condApi cid yes_only "condition_id").isEmpty = false := by
      simp [List.isEmpty_iff, h1]
    simp [queryByConditionGo, he1]
  · intro h1 h2
    have he2 : (conditionCollected condApi cid yes_only "conditionId").isEmpty = false := by
      simp [List.isEmpty_iff, h2]
    simp [queryByConditionGo, h1, he2]
  · intro h1 h2 h3
    have he3 : (conditionCollected condApi cid yes_only "market").isEmpty = false := by
      simp [List.isEmpty_iff, h3]
    simp [queryByConditionGo, h1, h2, he3, conditionParamVariants]
  · intro h1 h2 h3
    simp [queryByConditionGo, h1, h2, h3, conditionParamVariants]

/-- Witness for C1: the first variant returns nothing, the second returns one
sub-record with duplicated token IDs — the resolver queries exactly
`condition_id` then `conditionId`, never `market`, and de-duplicates
preserving order. -/
theorem condition_fallback_variant_order_witness :
    (resolveSpec (fun _ => .error (.runtimeError "down"))
        (fun variant _ => if variant == "conditionId" then
          [.obj [("clobTokenIds", .arr [.s "T1", .s "T2", .s "T1"])]] else [])
        [("condition_id", .s "c")] false).2 = ["condition_id", "conditionId"] ∧
      (resolveSpec (fun _ => .error (.runtimeError "down"))
        (fun variant _ => if variant == "conditionId" then
          [.obj [("clobTokenIds", .arr [.s "T1", .s "T2", .s "T1"])]] else [])
        [("condition_id", .s "c")] false).1 = [.s "T1", .s "T2"] := by
  have h := condition_fallback_variant_order (fun _ => .error (.runtimeError "down"))
    (fun variant _ => if variant == "conditionId" then
      [.obj [("clobTokenIds", .arr [.s "T1", .s "T2", .s "T1"])]] else [])
    [("condition_id", .s "c")] false "c" rfl rfl rfl
  have h2 := h.2.1 rfl (by
    intro hc
    have : ([PyVal.s "T1", .s "T2", .s "T1"] : List PyVal) = [] := by
      rw [show conditionCollected
          (fun variant _ => if variant == "conditionId" then
            [PyVal.obj [("clobTokenIds", PyVal.arr [.s "T1", .s "T2", .s "T1"])]] else [])
          "c" false "conditionId" = [PyVal.s "T1", .s "T2", .s "T1"] from rfl] at hc
      exact hc
    cases this)
  exact ⟨h2.1, h2.2.trans rfl⟩

end PolySig

